import Mathlib

/-!
Shallow embedding of the polygon boolean-operation core of flatten-js
(src/algorithms/boolean_op.js) together with theorems about the invariants
of its pipeline (collect, sort, split, deduplicate, classify, excise,
restitch).

Definitions marked "Translated from" mirror functions of boolean_op.js;
definitions marked "Modelled from the spec:" model external collaborators
of the core (the primitive oracle and the polygon store) that are not part
of boolean_op.js, following the words of the specification.

Conventions of the embedding:
  - scalars (coordinates, lengths, arc lengths) are integers in units of
    one billionth of the geometric unit; the oracle's epsilon comparisons
    are modelled with the integer tolerance DP_TOL;
  - edges and faces are heap objects in the source; they are modelled by
    integer handles into tables, so that the source's object-identity
    comparisons (===) become equality of handles;
  - a JS field that can be undefined is an Option;
  - the sorted intersection arrays share their records with the primary
    arrays in the source; sorted arrays are therefore modelled as lists of
    indices into the primary lists, which models that sharing exactly.
-/

namespace FlattenBool

/-- Modelled from the spec: the single tolerance knob of the oracle
(flatten-js DP_TOL). Scalars of the embedding are integers in units of one
billionth of the geometric unit, so the tolerance of one millionth of a
unit is the integer 1000. -/
def DP_TOL : ℤ := 1000

namespace Utils

/-- Modelled from the spec: epsilon equality EQ(x, y) on scalars. -/
def EQ (x y : ℤ) : Bool := decide (x - y < DP_TOL) && decide (-DP_TOL < x - y)

/-- Modelled from the spec: epsilon strictly-less LT(x, y) on scalars. -/
def LT (x y : ℤ) : Bool := decide (x - y < -DP_TOL)

/-- Modelled from the spec: epsilon strictly-greater GT(x, y) on scalars. -/
def GT (x y : ℤ) : Bool := decide (DP_TOL < x - y)

end Utils

/-- A planar point with integer (scaled) coordinates. -/
structure Pt where
  x : ℤ
  y : ℤ
deriving DecidableEq, Inhabited

/-- Modelled from the spec: point.equalTo(other) under epsilon. -/
def Pt.equalTo (p q : Pt) : Bool := Utils.EQ p.x q.x && Utils.EQ p.y q.y

def INSIDE : Nat := 1
def OUTSIDE : Nat := 0
def BOUNDARY : Nat := 2
def OVERLAP_SAME : Nat := 1
def OVERLAP_OPPOSITE : Nat := 2
def NOT_VERTEX : Nat := 0
def START_VERTEX : Nat := 1
def END_VERTEX : Nat := 2
def BOOLEAN_UNION : Nat := 1
def BOOLEAN_INTERSECT : Nat := 2
def BOOLEAN_SUBTRACT : Nat := 3

/-- Modelled from the spec: an edge of the polygon store, carrying its shape
data (start, end, length), its cumulative arc length from the face origin,
its ring links, its owning face and the mutable classification fields.
The overlap flag is a bitmask as in the source; 0 models the unset
(undefined) flag, for which the source's bitwise tests are falsy. -/
structure EdgeRec where
  startPt : Pt
  endPt : Pt
  length : ℤ
  arc_length : ℤ
  prev : Nat
  next : Nat
  face : Option Nat
  bv : Option Nat
  bvStart : Option Nat
  bvEnd : Option Nat
  overlap : Nat
deriving DecidableEq, Inhabited

/-- An intersection record of the core (one entry of int_points1 or
int_points2). -/
structure IntPoint where
  id : Int
  pt : Pt
  arc_length : ℤ
  edge_before : Option Nat
  edge_after : Option Nat
  face : Option Nat
  is_vertex : Nat
  faceId : Option Nat := none
deriving DecidableEq, Inhabited

/-- Translated from addToIntPoints (boolean_op.js), the len computation on a
non-empty split result s0 :: rest: 0 when the first sub-shape is null, the
edge's length when the second sub-shape is null, and the first sub-shape's
length otherwise. -/
def lenOfSplit (E : Nat → EdgeRec) (edge : Nat) (s0 : Option ℤ)
    (rest : List (Option ℤ)) : ℤ :=
  match s0 with
  | none => 0
  | some q => if rest.head? = some none then (E edge).length else q

/-- Translated from addToIntPoints (boolean_op.js). The result of the
oracle's edge.shape.split(pt) is passed in as `shapes`, a list of optional
sub-shapes carrying their lengths; none models a null sub-shape (the point
coincides with the start or the end of the shape), and the empty list
models a split with zero sub-shapes. -/
def addToIntPoints (E : Nat → EdgeRec) (edge : Nat) (pt : Pt)
    (shapes : List (Option ℤ)) (int_points : List IntPoint) : List IntPoint :=
  let id := int_points.length
  match shapes with
  | [] => int_points
  | s0 :: rest =>
    let len : ℤ := lenOfSplit E edge s0 rest
    let iv1 : Nat := if Utils.EQ len 0 then START_VERTEX else 0
    let iv2 : Nat := if Utils.EQ len (E edge).length then END_VERTEX else 0
    let is_vertex := iv1 ||| iv2
    let arc_length : ℤ :=
      if is_vertex &&& END_VERTEX ≠ 0 ∧ (E (E edge).next).arc_length = 0 then 0
      else (E edge).arc_length + len
    int_points ++ [{ id := id, pt := pt, arc_length := arc_length,
                     edge_before := some edge, edge_after := none,
                     face := (E edge).face, is_vertex := is_vertex }]

/-- One crossing reported by the oracle while walking edge pairs: the edge of
polygon 1, the edge of polygon 2 and the intersection point. These triples
are the inputs of getIntersections; the spatial-index search and the
shape-intersection routine that produce them are external. -/
structure Crossing where
  e1 : Nat
  e2 : Nat
  pt : Pt
deriving DecidableEq, Inhabited

/-- Translated from getIntersections (boolean_op.js): for every reported
crossing, push one record built from the polygon-1 edge and one record built
from the polygon-2 edge, adjacently, so that the two lists are paired by
index. `sp1` and `sp2` are the oracle's shape.split results for edges of the
two polygons. -/
def getIntersections (E1 E2 : Nat → EdgeRec)
    (sp1 sp2 : Nat → Pt → List (Option ℤ))
    (crossings : List Crossing) : List IntPoint × List IntPoint :=
  crossings.foldl
    (fun st c =>
      (addToIntPoints E1 c.e1 c.pt (sp1 c.e1 c.pt) st.1,
       addToIntPoints E2 c.e2 c.pt (sp2 c.e2 c.pt) st.2))
    ([], [])

/-- Translated from getSortedArray (boolean_op.js): the first-seen map from
faces to dense integer ids, as the list of distinct faces in first-seen
order (the dense id of a face is its index in this list). -/
def buildFaceMap (int_points : List IntPoint) : List (Option Nat) :=
  int_points.foldl (fun acc ip => if ip.face ∈ acc then acc else acc ++ [ip.face]) []

/-- Translated from getSortedArray (boolean_op.js): stamp every record with
the dense id of its face. -/
def stampFaceIds (int_points : List IntPoint) : List IntPoint :=
  let fm := buildFaceMap int_points
  int_points.map fun ip => { ip with faceId := fm.findIdx? (fun f => decide (f = ip.face)) }

/-- Translated from compareFn (boolean_op.js): compare two stamped records by
face id first and then by arc length under the oracle's epsilon comparisons.
The sorter always stamps before sorting, so the stamped faceId is read with
a default that is never used on sorted inputs. -/
def compareFn (ip1 ip2 : IntPoint) : Int :=
  if ip1.faceId.getD 0 < ip2.faceId.getD 0 then -1
  else if ip2.faceId.getD 0 < ip1.faceId.getD 0 then 1
  else if Utils.LT ip1.arc_length ip2.arc_length then -1
  else if Utils.GT ip1.arc_length ip2.arc_length then 1
  else 0

/-- Modelled from the spec: the stable comparison sort used on the cloned
record array (a stable insertion sort). The sorted array of the source
shares its records with the primary array; it is modelled as a list of
indices into the primary list. A later index is inserted after every
already-placed index that compares less-or-equal, which is the stable
order. -/
def insertSorted (prim : List IntPoint) (j : Nat) : List Nat → List Nat
  | [] => [j]
  | k :: rest =>
    if compareFn (prim.getD k default) (prim.getD j default) ≤ 0 then
      k :: insertSorted prim j rest
    else j :: k :: rest

/-- Modelled from the spec: sort the index list of the primary list with the
stable sort and compareFn. -/
def sortIndices (prim : List IntPoint) : List Nat :=
  (List.range prim.length).foldl (fun acc j => insertSorted prim j acc) []

/-- Translated from getSortedArray (boolean_op.js): assign dense face ids in
first-seen order, stamp all records, then sort a copy of the array. Returns
the stamped primary list together with the sorted index list. -/
def getSortedArray (prim : List IntPoint) : List IntPoint × List Nat :=
  let stamped := stampFaceIds prim
  (stamped, sortIndices stamped)

/-- The intersections structure of the source: the two primary record lists
and the two sorted arrays (as index lists into the primary lists). -/
structure Inters where
  int_points1 : List IntPoint
  int_points2 : List IntPoint
  int_points1_sorted : List Nat
  int_points2_sorted : List Nat
deriving DecidableEq, Inhabited

/-- Translated from sortIntersections (boolean_op.js). -/
def sortIntersections (s : Inters) : Inters :=
  let g1 := getSortedArray s.int_points1
  let g2 := getSortedArray s.int_points2
  { int_points1 := g1.1, int_points2 := g2.1,
    int_points1_sorted := g1.2, int_points2_sorted := g2.2 }

/-- Modelled from the spec: a polygon of the store — a table of edge objects
addressed by handles, the allocator bound for fresh edge handles, the edge
rings of its faces (face handle to the cyclic list of its edges) and the
allocator bound for fresh face handles. Only handles below the allocator
bounds denote live objects. -/
structure PolyM where
  E : Nat → EdgeRec
  nextE : Nat
  fEdges : Nat → List Nat
  nextF : Nat

instance : Inhabited PolyM :=
  ⟨{ E := fun _ => default, nextE := 0, fEdges := fun _ => [], nextF := 0 }⟩

/-- Update one entry of an edge table. -/
def updE (E : Nat → EdgeRec) (i : Nat) (r : EdgeRec) : Nat → EdgeRec :=
  fun j => if j = i then r else E j

/-- Insert handle n immediately before the first occurrence of handle e in a
face ring list. -/
def insertBeforeIn (e n : Nat) : List Nat → List Nat
  | [] => [n]
  | k :: rest => if k = e then n :: k :: rest else k :: insertBeforeIn e n rest

/-- Modelled from the spec: the store's addVertex(pt, edge). A new edge is
inserted before `edge` in its ring; the new edge keeps the old start point
and ends at pt, and `edge` is truncated to start at pt, so that the new
edge is the edge whose shape ends at the inserted vertex. Returns the
updated polygon and the handle of the new edge. The lengths of the two
sub-shapes are geometric data of the oracle and are not used by the
properties below; the new edge inherits the arc length of the edge origin
it starts at. -/
def addVertex (p : PolyM) (pt : Pt) (e : Nat) : PolyM × Nat :=
  let n := p.nextE
  let old := p.E e
  let p0 := old.prev
  let E1 := updE p.E e { old with startPt := pt, prev := n }
  let E2 := updE E1 p0 { (E1 p0) with next := n }
  let newRec : EdgeRec :=
    { startPt := old.startPt, endPt := pt, length := 0,
      arc_length := old.arc_length, prev := p0, next := e,
      face := old.face, bv := none, bvStart := none, bvEnd := none,
      overlap := 0 }
  let E3 := updE E2 n newRec
  let fE := match old.face with
            | some f => fun g => if g = f then insertBeforeIn e n (p.fEdges f)
                                 else p.fEdges g
            | none => p.fEdges
  ({ E := E3, nextE := n + 1, fEdges := fE, nextF := p.nextF }, n)

/-- Translated from splitByIntersections (boolean_op.js), body of the first
pass for the record at index j of the primary list: recompute the vertex
flag against the current edge_before, retarget to the previous edge when
the point sits on the start vertex, keep the edge when it sits on the end
vertex, and otherwise insert a new vertex and retarget to the new edge. -/
def splitStep (st : PolyM × List IntPoint) (j : Nat) : PolyM × List IntPoint :=
  let p := st.1
  let prim := st.2
  let ip := prim.getD j default
  match ip.edge_before with
  | none => st
  | some e =>
    let iv1 : Nat := if (p.E e).startPt.equalTo ip.pt then START_VERTEX else 0
    let iv2 : Nat := if (p.E e).endPt.equalTo ip.pt then END_VERTEX else 0
    let iv := iv1 ||| iv2
    if iv &&& START_VERTEX ≠ 0 then
      (p, prim.set j { ip with edge_before := some (p.E e).prev,
                               is_vertex := END_VERTEX })
    else if iv &&& END_VERTEX ≠ 0 then
      (p, prim.set j { ip with is_vertex := iv })
    else
      let pn := addVertex p ip.pt e
      (pn.1, prim.set j { ip with edge_before := some pn.2, is_vertex := iv })

/-- Translated from splitByIntersections (boolean_op.js), body of the second
pass for the record at index j: set edge_after := edge_before.next in the
polygon P resulting from the first pass. -/
def splitAfterStep (P : PolyM) (pr : List IntPoint) (j : Nat) :
    List IntPoint :=
  let ip := pr.getD j default
  pr.set j { ip with
    edge_after := ip.edge_before.map (fun b => (P.E b).next) }

/-- Translated from splitByIntersections (boolean_op.js): the first pass runs
splitStep over the sorted records, the second pass sets
edge_after := edge_before.next for every record (the two passes are not
fused, as in the source). -/
def splitByIntersections (p : PolyM) (prim : List IntPoint)
    (sortedIdx : List Nat) : PolyM × List IntPoint :=
  let st := sortedIdx.foldl splitStep (p, prim)
  (st.1, sortedIdx.foldl (splitAfterStep st.1) st.2)

/-- The rolling state of the two duplicate-filter sweeps: the two primary
lists being marked, the two captured reference records and the squeeze
flag. -/
structure SweepSt where
  prim1 : List IntPoint
  prim2 : List IntPoint
  ref1 : IntPoint
  ref2 : IntPoint
  do_squeeze : Bool
deriving Inhabited

/-- Translated from filterDuplicatedIntersections (boolean_op.js), body of
the first sweep at the record with index j (an entry of the first sorted
array): when the arc length leaves the reference, re-capture the reference
pair; otherwise mark the current pair for deletion when both sides repeat
the reference pair's edges. -/
def sweep1Step (st : SweepSt) (j : Nat) : SweepSt :=
  let cur1 := st.prim1.getD j default
  if Utils.EQ cur1.arc_length st.ref1.arc_length = false then
    { st with ref1 := cur1, ref2 := st.prim2.getD cur1.id.toNat default }
  else
    let cur2 := st.prim2.getD cur1.id.toNat default
    if cur1.edge_before = st.ref1.edge_before ∧
       cur1.edge_after = st.ref1.edge_after ∧
       cur2.edge_before = st.ref2.edge_before ∧
       cur2.edge_after = st.ref2.edge_after then
      { st with prim1 := st.prim1.set j { cur1 with id := -1 },
                prim2 := st.prim2.set cur1.id.toNat { cur2 with id := -1 },
                do_squeeze := true }
    else st

/-- Translated from filterDuplicatedIntersections (boolean_op.js), body of
the second sweep at the record with index j (an entry of the second sorted
array), skipping records already marked and references already marked. -/
def sweep2Step (st : SweepSt) (j : Nat) : SweepSt :=
  let cur2 := st.prim2.getD j default
  if cur2.id = -1 then st
  else if st.ref2.id = -1 ∨
          Utils.EQ cur2.arc_length st.ref2.arc_length = false then
    { st with ref2 := cur2, ref1 := st.prim1.getD cur2.id.toNat default }
  else
    let cur1 := st.prim1.getD cur2.id.toNat default
    if cur1.edge_before = st.ref1.edge_before ∧
       cur1.edge_after = st.ref1.edge_after ∧
       cur2.edge_before = st.ref2.edge_before ∧
       cur2.edge_after = st.ref2.edge_after then
      { st with prim1 := st.prim1.set cur2.id.toNat { cur1 with id := -1 },
                prim2 := st.prim2.set j { cur2 with id := -1 },
                do_squeeze := true }
    else st

/-- Re-densify ids to list positions, starting at position k (models the
squeeze's forEach((int_point, index) => int_point.id = index)). -/
def reIdFrom (k : Nat) : List IntPoint → List IntPoint
  | [] => []
  | ip :: rest => { ip with id := (k : Int) } :: reIdFrom (k + 1) rest

/-- Translated from filterDuplicatedIntersections (boolean_op.js): nothing to
filter below two records; otherwise run the two marking sweeps, and if any
pair was marked, squeeze both primary lists, re-densify the ids and rebuild
the sorted arrays. -/
def filterDuplicatedIntersections (s : Inters) : Inters :=
  if s.int_points1.length < 2 then s
  else
    let st0 : SweepSt :=
      match s.int_points1_sorted with
      | [] => { prim1 := s.int_points1, prim2 := s.int_points2,
                ref1 := default, ref2 := default, do_squeeze := false }
      | j0 :: _ =>
        let r1 := s.int_points1.getD j0 default
        { prim1 := s.int_points1, prim2 := s.int_points2,
          ref1 := r1, ref2 := s.int_points2.getD r1.id.toNat default,
          do_squeeze := false }
    let st1 := (s.int_points1_sorted.drop 1).foldl sweep1Step st0
    let st2 :=
      match s.int_points2_sorted with
      | [] => st1
      | j0 :: _ =>
        let r2 := st1.prim2.getD j0 default
        (s.int_points2_sorted.drop 1).foldl sweep2Step
          { st1 with ref2 := r2, ref1 := st1.prim1.getD r2.id.toNat default }
    if st2.do_squeeze then
      let f1 := reIdFrom 0 (st2.prim1.filter (fun ip => decide (0 ≤ ip.id)))
      let f2 := reIdFrom 0 (st2.prim2.filter (fun ip => decide (0 ≤ ip.id)))
      sortIntersections
        { int_points1 := f1, int_points2 := f2,
          int_points1_sorted := [], int_points2_sorted := [] }
    else
      { s with int_points1 := st2.prim1, int_points2 := st2.prim2 }

/-- Translated from calculateIntersections (boolean_op.js), the pipeline up
to and including the duplicate filter: collect, sort, split both polygons,
filter. The oracle's split results and the reported crossing triples are
inputs. -/
def calcPipeline (p1 p2 : PolyM) (sp1 sp2 : Nat → Pt → List (Option ℤ))
    (crossings : List Crossing) : PolyM × PolyM × Inters :=
  let pr := getIntersections p1.E p2.E sp1 sp2 crossings
  let s1 := sortIntersections
    { int_points1 := pr.1, int_points2 := pr.2,
      int_points1_sorted := [], int_points2_sorted := [] }
  let r1 := splitByIntersections p1 s1.int_points1 s1.int_points1_sorted
  let r2 := splitByIntersections p2 s1.int_points2 s1.int_points2_sorted
  let s3 := filterDuplicatedIntersections
    { s1 with int_points1 := r1.2, int_points2 := r2.2 }
  (r1.1, r2.1, s3)

/-- Translated from intPointsPullCount (boolean_op.js), the counting loop:
walk the records after the current one and count while they repeat the
current record's point (under epsilon) and its two edges; the loop also
stops when the current record's face differs from the current face. -/
def pullCountAux (current : IntPoint) (cur_face : Option Nat) :
    List IntPoint → Nat
  | [] => 0
  | ipn :: rest =>
    if current.face ≠ cur_face then 0
    else if ipn.pt.equalTo current.pt = true ∧
            ipn.edge_before = current.edge_before ∧
            ipn.edge_after = current.edge_after then
      1 + pullCountAux current cur_face rest
    else 0

/-- Translated from intPointsPullCount (boolean_op.js). -/
def intPointsPullCount (int_points : List IntPoint) (cur_num : Nat)
    (cur_face : Option Nat) : Nat :=
  if int_points.length = 1 then 1
  else 1 + pullCountAux (int_points.getD cur_num default) cur_face
             (int_points.drop (cur_num + 1))

/-- Translated from removeNotRelevantChains (boolean_op.js), the deletion
condition on the chain's two end edges (the big disjunction of the source,
with the same bitmask tests on the overlap flag). A JS read of e.bv through
an undefined edge reference is modelled as none, which makes every equality
of the condition false. -/
def removeCond (E : Nat → EdgeRec) (op : Nat) (is_res : Bool)
    (ef et : Option Nat) : Bool :=
  let bvf := ef.bind fun e => (E e).bv
  let bvt := et.bind fun e => (E e).bv
  let ovf : Nat := match ef with
                   | some e => (E e).overlap
                   | none => 0
  decide ((bvf = some INSIDE ∧ bvt = some INSIDE ∧ op = BOOLEAN_UNION) ∨
    (bvf = some OUTSIDE ∧ bvt = some OUTSIDE ∧ op = BOOLEAN_INTERSECT) ∨
    ((bvf = some OUTSIDE ∨ bvt = some OUTSIDE) ∧
      op = BOOLEAN_SUBTRACT ∧ is_res = false) ∨
    ((bvf = some INSIDE ∨ bvt = some INSIDE) ∧
      op = BOOLEAN_SUBTRACT ∧ is_res = true) ∨
    (bvf = some BOUNDARY ∧ bvt = some BOUNDARY ∧
      ovf &&& OVERLAP_SAME ≠ 0 ∧ is_res = true) ∨
    (bvf = some BOUNDARY ∧ bvt = some BOUNDARY ∧
      ovf &&& OVERLAP_OPPOSITE ≠ 0))

/-- Modelled from the spec: the edges of the chain from a to b along next
links, with fuel; used by the removeChain model. -/
def chainFromAux (E : Nat → EdgeRec) (b : Nat) :
    Nat → Nat → List Nat
  | 0, a => [a]
  | fuel + 1, a => if a = b then [a] else a :: chainFromAux E b fuel (E a).next

/-- Modelled from the spec: the store's removeChain(face, from, to) unlinks
the chain of edges from `from` to `to` inclusive from the face's ring. -/
def removeChain (E : Nat → EdgeRec) (fE : Nat → List Nat) (f : Nat)
    (efrom eto : Option Nat) : Nat → List Nat :=
  match efrom, eto with
  | some a, some b =>
    let ch := chainFromAux E b (fE f).length a
    fun g => if g = f then (fE g).filter (fun e => decide (e ∉ ch)) else fE g
  | _, _ => fE

/-- A recorded excision decision: the face, the two end edges of the chain
between the current crossing and the next crossing on the face, and whether
the chain was removed. The trace records one entry per processed crossing
on a non-empty face; it instruments the embedding and changes nothing in
the computation. -/
structure ChainDecision where
  cface : Nat
  edge_from : Option Nat
  edge_to : Option Nat
  removed : Bool
deriving DecidableEq, Inhabited

/-- Translated from removeNotRelevantChains (boolean_op.js): the index of
the next crossing for the current one — the record after the from-pull when
it exists and still lies on the same face, and otherwise the first crossing
of the face (the wrap). -/
def rnrcNextNum (pts : List IntPoint) (i from_num first_num' : Nat)
    (current : IntPoint) : Nat :=
  if i + from_num < pts.length ∧
     (pts.getD (i + from_num) default).face = current.face
  then i + from_num else first_num'

/-- Translated from removeNotRelevantChains (boolean_op.js), the main loop:
fuel-bounded recursion over the sorted record index i; `cur_face` is none
before the first record. The from-pull and to-pull update loops are
translated literally: each round writes the captured current (respectively
next) record, as the source does. -/
def removeNotRelevantChainsAux (E : Nat → EdgeRec) (op : Nat)
    (is_res : Bool) :
    Nat → (Nat → List Nat) → List IntPoint → List ChainDecision →
    Nat → Option (Option Nat) → Nat →
    (Nat → List Nat) × List IntPoint × List ChainDecision
  | 0, fE, pts, tr, _, _, _ => (fE, pts, tr)
  | fuel + 1, fE, pts, tr, i, cur_face, first_num =>
    if i < pts.length then
      let current := pts.getD i default
      let started := some current.face ≠ cur_face
      let cur_face' := if started then some current.face else cur_face
      let first_num' := if started then i else first_num
      let curf : Option Nat := cur_face'.getD none
      let isEmptyF : Bool := match curf with
                             | some f => decide (fE f = [])
                             | none => false
      if isEmptyF then
        removeNotRelevantChainsAux E op is_res fuel fE pts tr (i + 1)
          cur_face' first_num'
      else
        let from_num := intPointsPullCount pts i curf
        let next_num := rnrcNextNum pts i from_num first_num' current
        let next := pts.getD next_num default
        let to_num := intPointsPullCount pts next_num curf
        let edge_from := current.edge_after
        let edge_to := next.edge_before
        let cond := removeCond E op is_res edge_from edge_to
        let dec : ChainDecision :=
          { cface := curf.getD 0, edge_from := edge_from, edge_to := edge_to,
            removed := cond }
        if cond = true then
          let fE' := removeChain E fE (curf.getD 0) edge_from edge_to
          let pts1 := (List.range from_num).foldl
            (fun ps _ =>
              ps.set i { ps.getD i default with edge_after := none }) pts
          let pts2 := (List.range to_num).foldl
            (fun ps _ =>
              ps.set next_num
                { ps.getD next_num default with edge_before := none }) pts1
          removeNotRelevantChainsAux E op is_res fuel fE' pts2 (tr ++ [dec])
            (i + from_num) cur_face' first_num'
        else
          removeNotRelevantChainsAux E op is_res fuel fE pts (tr ++ [dec])
            (i + from_num) cur_face' first_num'
    else (fE, pts, tr)

/-- Translated from removeNotRelevantChains (boolean_op.js): run the loop
from the first sorted record. `pts` is the sorted record list of one
polygon; the result is the updated face rings, the updated records and the
trace of excision decisions. -/
def removeNotRelevantChains (E : Nat → EdgeRec) (op : Nat) (is_res : Bool)
    (fE : Nat → List Nat) (pts : List IntPoint) :
    (Nat → List Nat) × List IntPoint × List ChainDecision :=
  removeNotRelevantChainsAux E op is_res (pts.length + 1) fE pts [] 0 none 0

/-- The shared mutable state of the link-swapping phase: the edge table (the
edges of both polygons live in one object heap) and the two primary record
lists. -/
structure SwapSt where
  E : Nat → EdgeRec
  prim1 : List IntPoint
  prim2 : List IntPoint

/-- Connect edge b to edge a: b.next := a and a.prev := b, as the source
writes the two link fields. -/
def connectE (E : Nat → EdgeRec) (b a : Nat) : Nat → EdgeRec :=
  let E1 := updE E b { E b with next := a }
  updE E1 a { E1 a with prev := b }

/-- Translated from swapLinks (boolean_op.js), the simple case on the
polygon-1 record at index i: the polygon-1 continuation after the crossing
was excised and the polygon-2 continuation survived. -/
def swapSimple1 (st : SwapSt) (i : Nat) : SwapSt :=
  let p1 := st.prim1.getD i default
  let p2 := st.prim2.getD i default
  match p1.edge_before, p1.edge_after, p2.edge_before, p2.edge_after with
  | some b1, none, none, some a2 =>
    { E := connectE st.E b1 a2,
      prim1 := st.prim1.set i { p1 with edge_after := some a2 },
      prim2 := st.prim2.set i { p2 with edge_before := some b1 } }
  | _, _, _, _ => st

/-- Translated from swapLinks (boolean_op.js), the mirror simple case on the
polygon-2 record at index i. -/
def swapSimple2 (st : SwapSt) (i : Nat) : SwapSt :=
  let p1 := st.prim1.getD i default
  let p2 := st.prim2.getD i default
  match p2.edge_before, p2.edge_after, p1.edge_before, p1.edge_after with
  | some b2, none, none, some a1 =>
    { E := connectE st.E b2 a1,
      prim2 := st.prim2.set i { p2 with edge_after := some a1 },
      prim1 := st.prim1.set i { p1 with edge_before := some b2 } }
  | _, _, _, _ => st

/-- Translated from swapLinks (boolean_op.js), the complex (touching point)
case on polygon 1: when the record at index i still has no continuation,
scan the sorted records of the same polygon for a record at the same point
whose edge_before is missing and edge_after survives, and splice through
it. The scan does not stop after a splice, as in the source. -/
def swapComplex1 (sorted1 : List Nat) (st : SwapSt) (i : Nat) : SwapSt :=
  let p1 := st.prim1.getD i default
  match p1.edge_before, p1.edge_after with
  | some _, none =>
    sorted1.foldl
      (fun s k =>
        if k = i then s
        else
          let cand := s.prim1.getD k default
          match cand.edge_before, cand.edge_after,
                (s.prim1.getD i default).edge_before with
          | none, some a, some b =>
            let p1c := s.prim1.getD i default
            if cand.pt.equalTo p1c.pt = true then
              { E := connectE s.E b a,
                prim1 := (s.prim1.set i { p1c with edge_after := some a }).set
                           k { cand with edge_before := some b },
                prim2 := s.prim2 }
            else s
          | _, _, _ => s)
      st
  | _, _ => st

/-- Translated from swapLinks (boolean_op.js), the complex case on
polygon 2. -/
def swapComplex2 (sorted2 : List Nat) (st : SwapSt) (i : Nat) : SwapSt :=
  let p2 := st.prim2.getD i default
  match p2.edge_before, p2.edge_after with
  | some _, none =>
    sorted2.foldl
      (fun s k =>
        if k = i then s
        else
          let cand := s.prim2.getD k default
          match cand.edge_before, cand.edge_after,
                (s.prim2.getD i default).edge_before with
          | none, some a, some b =>
            let p2c := s.prim2.getD i default
            if cand.pt.equalTo p2c.pt = true then
              { E := connectE s.E b a,
                prim2 := (s.prim2.set i { p2c with edge_after := some a }).set
                           k { cand with edge_before := some b },
                prim1 := s.prim1 }
            else s
          | _, _, _ => s)
      st
  | _, _ => st

/-- Translated from swapLinks (boolean_op.js), one iteration of the main
loop: the two simple cases, then the two complex cases, in source order. -/
def swapStep (sorted1 sorted2 : List Nat) (st : SwapSt) (i : Nat) : SwapSt :=
  swapComplex2 sorted2
    (swapComplex1 sorted1 (swapSimple2 (swapSimple1 st i) i) i) i

/-- Translated from swapLinks (boolean_op.js). The function ends with no
check: the source's closing comment about dead ends is a comment only. -/
def swapLinks (st : SwapSt) (sorted1 sorted2 : List Nat) : SwapSt :=
  if st.prim1.length = 0 then st
  else (List.range st.prim1.length).foldl (swapStep sorted1 sorted2) st

/-- Translated from removeOldFaces (boolean_op.js): for every record, delete
its face from the polygon's face set and clear the face field of the record
and of its surrounding edges. -/
def removeOldFaces (facesL : List Nat) (E : Nat → EdgeRec)
    (prim : List IntPoint) :
    List Nat × (Nat → EdgeRec) × List IntPoint :=
  (List.range prim.length).foldl
    (fun s j =>
      let ip := s.2.2.getD j default
      let fs' := match ip.face with
                 | some f => s.1.filter (fun g => decide (g ≠ f))
                 | none => s.1
      let E1 := match ip.edge_before with
                | some b => updE s.2.1 b { s.2.1 b with face := none }
                | none => s.2.1
      let E2 := match ip.edge_after with
                | some a => updE E1 a { E1 a with face := none }
                | none => E1
      (fs', E2, s.2.2.set j { ip with face := none }))
    (facesL, E, prim)

/-- Modelled from the spec: the store's addFace(firstEdge, lastEdge) walks
the ring from the first edge to the last edge along next links and assigns
the new face to every edge on the way (fuel-bounded walk). -/
def addFaceWalk (f : Nat) (last : Nat) :
    Nat → (Nat → EdgeRec) → Nat → (Nat → EdgeRec)
  | 0, E, cur => updE E cur { E cur with face := some f }
  | fuel + 1, E, cur =>
    let E1 := updE E cur { E cur with face := some f }
    if cur = last then E1 else addFaceWalk f last fuel E1 (E1 cur).next

/-- The state of the face-restoring phase: the edge table, the result
polygon's face set, the face allocator, the record list being walked and
the other polygon's record list. -/
structure RestoreSt where
  E : Nat → EdgeRec
  faces : List Nat
  nextF : Nat
  prim : List IntPoint
  other : List IntPoint

/-- Translated from restoreFaces (boolean_op.js), the body of its loop for
the record at index j: only a record whose two edges are both present and
face-free is turned into a new face; any record with an undefined
edge_before or edge_after is skipped without any check or error. -/
def restoreStep (nEdges : Nat) (s : RestoreSt) (j : Nat) : RestoreSt :=
  let ip := s.prim.getD j default
  match ip.edge_before, ip.edge_after with
  | some b, some a =>
    if ip.face ≠ none then s
    else if (s.E a).face ≠ none ∨ (s.E b).face ≠ none then s
    else
      let f := s.nextF
      let E1 := addFaceWalk f b nEdges s.E a
      let mark := fun (pr : List IntPoint) =>
        (List.range pr.length).foldl
          (fun pr2 k =>
            let q := pr2.getD k default
            match q.edge_before, q.edge_after with
            | some qb, some qa =>
              if (E1 qb).face = some f ∧ (E1 qa).face = some f then
                pr2.set k { q with face := some f }
              else pr2
            | _, _ => pr2)
          pr
      { E := E1, faces := s.faces ++ [f], nextF := f + 1,
        prim := mark s.prim, other := mark s.other }
  | _, _ => s

/-- Translated from restoreFaces (boolean_op.js): for every record whose two
edges are present and whose face is not yet assigned and whose edges carry
no face yet, create a new face from edge_after to edge_before, then mark
every record (on either side) whose surrounding edges landed on the new
face. `nEdges` bounds the ring walk of the addFace model. -/
def restoreFaces (nEdges : Nat) (st : RestoreSt) : RestoreSt :=
  (List.range st.prim.length).foldl (restoreStep nEdges) st

/-- Translated from swapLinksAndRestore (boolean_op.js), the restitch tail
after the working edges were merged: swap links, remove the old faces of
both polygons, restore the faces from the records of polygon 1 and then
from the records of polygon 2. The codomain is Except to record the error
channel of the engine on this path: the source contains no throw here, so
no error value is ever produced and unresolved crossings are passed through
silently. -/
def swapLinksAndRestore (nEdges : Nat) (faces1 faces2 : List Nat)
    (nextF : Nat) (st : SwapSt) (sorted1 sorted2 : List Nat) :
    Except String RestoreSt :=
  let sw := swapLinks st sorted1 sorted2
  let r1 := removeOldFaces faces1 sw.E sw.prim1
  let r2 := removeOldFaces faces2 r1.2.1 sw.prim2
  let s1 := restoreFaces nEdges
    { E := r2.2.1, faces := r1.1, nextF := nextF,
      prim := r1.2.2, other := r2.2.2 }
  let s2 := restoreFaces nEdges
    { s1 with prim := s1.other, other := s1.prim }
  Except.ok { s2 with prim := s2.other, other := s2.prim }

/-- The specification's excision rule, written from the words of the spec:
delete the chain bounded by edge_from and edge_to when one of the six
operator cases holds. The boundary values and the overlap flag are read
from the same edge table as in the engine. -/
def specExcisionRule (E : Nat → EdgeRec) (op : Nat) (is_res : Bool)
    (ef et : Option Nat) : Prop :=
  let bvf := ef.bind fun e => (E e).bv
  let bvt := et.bind fun e => (E e).bv
  let ovf : Nat := match ef with
                   | some e => (E e).overlap
                   | none => 0
  (op = BOOLEAN_UNION ∧ bvf = some INSIDE ∧ bvt = some INSIDE) ∨
  (op = BOOLEAN_INTERSECT ∧ bvf = some OUTSIDE ∧ bvt = some OUTSIDE) ∨
  (op = BOOLEAN_SUBTRACT ∧ is_res = false ∧
    (bvf = some OUTSIDE ∨ bvt = some OUTSIDE)) ∨
  (op = BOOLEAN_SUBTRACT ∧ is_res = true ∧
    (bvf = some INSIDE ∨ bvt = some INSIDE)) ∨
  (bvf = some BOUNDARY ∧ bvt = some BOUNDARY ∧ ovf = OVERLAP_SAME ∧
    is_res = true) ∨
  (bvf = some BOUNDARY ∧ bvt = some BOUNDARY ∧ ovf = OVERLAP_OPPOSITE)

/-- The pull-sharing statement of the spec over the sorter's output: within
each face, any two sorted-adjacent records with equal arc length (under
epsilon) share edge_before and edge_after, i.e. every maximal equal-length
run is a pull. -/
def sortedRunsSharePull (prim : List IntPoint) : Bool :=
  let g := getSortedArray prim
  (g.2.zip (g.2.drop 1)).all fun pr =>
    let a := g.1.getD pr.1 default
    let b := g.1.getD pr.2 default
    !(decide (a.faceId = b.faceId) && Utils.EQ a.arc_length b.arc_length) ||
    (decide (a.edge_before = b.edge_before) &&
     decide (a.edge_after = b.edge_after))

/-- Concrete edge table for the excision examples: edges 10 and 11 are
INSIDE and linked 10 → 11 → 12; every other edge is unclassified. -/
def exChainE : Nat → EdgeRec := fun i =>
  if i = 10 then { (default : EdgeRec) with bv := some INSIDE, next := 11 }
  else if i = 11 then { (default : EdgeRec) with bv := some INSIDE, next := 12 }
  else default

/-- Concrete face rings for the excision examples: one face 0 with four
edges. -/
def exChainF : Nat → List Nat := fun f =>
  if f = 0 then [9, 10, 11, 12] else []

/-- Concrete sorted crossing list for the excision examples: a from-pull of
two records at the same point with the same surrounding edges, followed by
one more crossing on the same face. -/
def exChainPts : List IntPoint :=
  [ { id := 0, pt := ⟨0, 0⟩, arc_length := 0, edge_before := some 9,
      edge_after := some 10, face := some 0, is_vertex := 0 },
    { id := 1, pt := ⟨0, 0⟩, arc_length := 0, edge_before := some 9,
      edge_after := some 10, face := some 0, is_vertex := 0 },
    { id := 2, pt := ⟨5, 0⟩, arc_length := 5, edge_before := some 11,
      edge_after := some 12, face := some 0, is_vertex := 0 } ]

/-- Concrete record list for the sorter example: two records on the same
face with exactly equal arc lengths but different edge_before handles. -/
def exSortPrim : List IntPoint :=
  [ { id := 0, pt := ⟨0, 0⟩, arc_length := 5, edge_before := some 1,
      edge_after := none, face := some 0, is_vertex := 0 },
    { id := 1, pt := ⟨0, 0⟩, arc_length := 5, edge_before := some 2,
      edge_after := none, face := some 0, is_vertex := 0 } ]

/-- Concrete intersections state with a single crossing pair, for the
early-return example. -/
def exSingle : Inters :=
  { int_points1 := [{ id := 0, pt := ⟨1, 1⟩, arc_length := 1,
                      edge_before := some 3, edge_after := some 4,
                      face := some 0, is_vertex := 0 }],
    int_points2 := [{ id := 0, pt := ⟨1, 1⟩, arc_length := 2,
                      edge_before := some 7, edge_after := some 8,
                      face := some 5, is_vertex := 0 }],
    int_points1_sorted := [0], int_points2_sorted := [0] }

/-- Adjacent sortedness of an index list under compareFn. -/
def AdjOK (prim : List IntPoint) (l : List Nat) : Prop :=
  List.Chain'
    (fun a b => compareFn (prim.getD a default) (prim.getD b default) ≤ 0) l

/-- Well-formedness of a polygon's edge rings: live links stay live, the
next edge of every live edge starts where it ends, and the prev and next
links are mutually inverse. This is the closed-ring discipline of the
store. -/
def WFp (p : PolyM) : Prop :=
  ∀ i, i < p.nextE →
    ((p.E i).next < p.nextE ∧
     (p.E i).prev < p.nextE ∧
     (p.E ((p.E i).next)).startPt = (p.E i).endPt ∧
     (p.E ((p.E i).next)).prev = i ∧
     (p.E ((p.E i).prev)).next = i)

/-- The record at index j has a live edge_before. -/
def ValidBefore (p : PolyM) (prim : List IntPoint) (j : Nat) : Prop :=
  ∃ b, (prim.getD j default).edge_before = some b ∧ b < p.nextE

/-- The record at index j has a live edge_before whose shape ends at the
record's point under epsilon. -/
def GoodBefore (p : PolyM) (prim : List IntPoint) (j : Nat) : Prop :=
  ∃ b, (prim.getD j default).edge_before = some b ∧ b < p.nextE ∧
    ((p.E b).endPt.equalTo (prim.getD j default).pt) = true

/-- Concrete two-edge polygon ring (a segment out and back) for the split
example. -/
def exSplitPoly : PolyM :=
  { E := fun i =>
      if i = 0 then
        ⟨⟨0, 0⟩, ⟨5, 0⟩, 5, 0, 1, 1, some 0, none, none, none, 0⟩
      else if i = 1 then
        ⟨⟨5, 0⟩, ⟨0, 0⟩, 5, 5, 0, 0, some 0, none, none, none, 0⟩
      else default,
    nextE := 2,
    fEdges := fun f => if f = 0 then [0, 1] else [],
    nextF := 1 }

/-- One crossing record in the interior of edge 0, for the split example. -/
def exSplitPts : List IntPoint :=
  [{ id := 0, pt := ⟨2, 0⟩, arc_length := 2, edge_before := some 0,
     edge_after := none, face := some 0, is_vertex := 0 }]

/-- A one-crossing input for exercising the full intersection pipeline: an
empty polygon table, a constant one-sub-shape split oracle and a single
reported crossing at the origin. -/
def exPairPoly : PolyM :=
  { E := fun _ => default, nextE := 0, fEdges := fun _ => [], nextF := 0 }

/-- The constant split oracle of the one-crossing example. -/
def exPairSp : Nat → Pt → List (Option ℤ) := fun _ _ => [some 1]

/-- The single reported crossing of the one-crossing example. -/
def exPairCross : List Crossing := [{ e1 := 0, e2 := 0, pt := { x := 0, y := 0 } }]

/-- Translated from booleanOpBinary (boolean_op.js), lifted to the
caller-visible store of polygons — a list of slots addressed by handles,
where mutating a polygon object is writing to its slot:
both operand values are cloned into fresh slots (polygon1.clone() and
polygon2.clone()), and every later stage of the call works on the two fresh
slots only — the stages receive res_poly and wrk_poly and nothing else, so
they are abstracted as a pure transformer `body` of the two clone values,
whose results are written back to the two fresh slots. Returns the heap and
the handles of the two result slots. -/
def booleanOpBinaryH (body : PolyM → PolyM → PolyM × PolyM)
    (h : List PolyM) (p1 p2 : PolyM) : List PolyM × Nat × Nat :=
  let r1 := h.length
  let h1 := h ++ [p1]
  let r2 := h1.length
  let h2 := h1 ++ [p2]
  let pr := body p1 p2
  ((h2.set r1 pr.1).set r2 pr.2, r1, r2)

/-- Translated from unify (boolean_op.js): booleanOpBinary on the two
operand values with BOOLEAN_UNION and restore = true. -/
def unifyH (body : PolyM → PolyM → Nat → Bool → PolyM × PolyM)
    (h : List PolyM) (i1 i2 : Nat) : List PolyM × Nat × Nat :=
  booleanOpBinaryH (fun a b => body a b BOOLEAN_UNION true) h
    (h.getD i1 default) (h.getD i2 default)

/-- Translated from intersect (boolean_op.js). -/
def intersectH (body : PolyM → PolyM → Nat → Bool → PolyM × PolyM)
    (h : List PolyM) (i1 i2 : Nat) : List PolyM × Nat × Nat :=
  booleanOpBinaryH (fun a b => body a b BOOLEAN_INTERSECT true) h
    (h.getD i1 default) (h.getD i2 default)

/-- Translated from subtract (boolean_op.js): the second operand value is
cloned (polygon2_tmp), the clone value is reversed (`rv` models the store's
polygon.reverse), and booleanOpBinary runs on the first operand value and
the reversed clone value with BOOLEAN_SUBTRACT — the caller's second
polygon slot is never written. -/
def subtractH (rv : PolyM → PolyM)
    (body : PolyM → PolyM → Nat → Bool → PolyM × PolyM)
    (h : List PolyM) (i1 i2 : Nat) : List PolyM × Nat × Nat :=
  booleanOpBinaryH (fun a b => body a b BOOLEAN_SUBTRACT true) h
    (h.getD i1 default) (rv (h.getD i2 default))

/-- Translated from innerClip (boolean_op.js): booleanOpBinary with
BOOLEAN_INTERSECT and restore = false (the clip shapes read afterwards are
edge shapes of the two result slots). -/
def innerClipH (body : PolyM → PolyM → Nat → Bool → PolyM × PolyM)
    (h : List PolyM) (i1 i2 : Nat) : List PolyM × Nat × Nat :=
  booleanOpBinaryH (fun a b => body a b BOOLEAN_INTERSECT false) h
    (h.getD i1 default) (h.getD i2 default)

/-- Translated from outerClip (boolean_op.js): booleanOpBinary with
BOOLEAN_SUBTRACT and restore = false. -/
def outerClipH (body : PolyM → PolyM → Nat → Bool → PolyM × PolyM)
    (h : List PolyM) (i1 i2 : Nat) : List PolyM × Nat × Nat :=
  booleanOpBinaryH (fun a b => body a b BOOLEAN_SUBTRACT false) h
    (h.getD i1 default) (h.getD i2 default)

/-- Translated from calculateIntersections (boolean_op.js): both operands
are cloned into fresh slots and the embedded pipeline (collect, sort,
split, filter) runs on the clone values; the split polygons are written to
the fresh slots. The source then returns the sorted crossing points, which
does not touch the heap. -/
def calculateIntersectionsH (sp1 sp2 : Nat → Pt → List (Option ℤ))
    (crossings : List Crossing) (h : List PolyM) (i1 i2 : Nat) :
    List PolyM × Nat × Nat :=
  booleanOpBinaryH
    (fun a b => ((calcPipeline a b sp1 sp2 crossings).1,
                 (calcPipeline a b sp1 sp2 crossings).2.1))
    h (h.getD i1 default) (h.getD i2 default)

/-- A one-record restitch state with a dead end: the polygon-1 record keeps
its edge_before but has no continuation, and the polygon-2 record carries
no edges at all, so no swap case can resolve the touching point. -/
def exSwapSt : SwapSt :=
  { E := fun _ => default,
    prim1 := [{ id := 0, pt := ⟨0, 0⟩, arc_length := 0, edge_before := some 0,
                edge_after := none, face := none, is_vertex := 0 }],
    prim2 := [{ id := 0, pt := ⟨0, 0⟩, arc_length := 0, edge_before := none,
                edge_after := none, face := none, is_vertex := 0 }] }

/-- The face-restoring state built from the dead-end example. -/
def exRestoreSt : RestoreSt :=
  { E := fun _ => default, faces := [], nextF := 0,
    prim := exSwapSt.prim1, other := exSwapSt.prim2 }

/-- Pairing of the two crossing lists: equal lengths, ids equal to the list
position on both sides, and pairwise equal points. -/
def Paired (p1 p2 : List IntPoint) : Prop :=
  p1.length = p2.length ∧
  ∀ k, k < p1.length →
    (p1.getD k default).pt = (p2.getD k default).pt ∧
    (p1.getD k default).id = (k : Int) ∧
    (p2.getD k default).id = (k : Int)

/-- Pairing up to pairwise marking: every position either still carries its
position as id on both sides, or is marked -1 on both sides (and then the
squeeze flag is set). Points stay pairwise equal. -/
def PairedOrMarked (p1 p2 : List IntPoint) (sq : Bool) : Prop :=
  p1.length = p2.length ∧
  ∀ k, k < p1.length →
    (p1.getD k default).pt = (p2.getD k default).pt ∧
    (((p1.getD k default).id = (k : Int) ∧
      (p2.getD k default).id = (k : Int)) ∨
     (sq = true ∧ (p1.getD k default).id = -1 ∧
      (p2.getD k default).id = -1))

/- ======================================================================
   Theorems. Everything below this line proves properties of the
   definitions above; no further definitions of the embedding follow.
   ====================================================================== -/

/-- Reading the appended element of a list at the old length. -/
theorem getD_append_len {α : Type} [Inhabited α] (l : List α) (r : α) :
    (l ++ [r]).getD l.length default = r := by
  induction l with
  | nil => rfl
  | cons a t ih => simp only [List.cons_append, List.length_cons]; exact ih

/-- C8: when the oracle's shape.split(pt) reports zero sub-shapes for a
point that was claimed to intersect the edge, addToIntPoints emits no
record: the crossing list is returned unchanged and, the function being
total, no error is raised. -/
theorem C8_degenerate_crossing_skipped (E : Nat → EdgeRec) (edge : Nat)
    (pt : Pt) (int_points : List IntPoint) :
    addToIntPoints E edge pt [] int_points = int_points := rfl

/-- C10: with fewer than two records collected on the first polygon, the
duplicate filter returns its input state unchanged — no list, id or sorted
array is modified and a lone crossing pair is never removed. -/
theorem C10_filter_early_return (s : Inters)
    (h : s.int_points1.length < 2) :
    filterDuplicatedIntersections s = s := by
  unfold filterDuplicatedIntersections
  simp [h]

/-- Witness for C10 at a concrete one-crossing state. -/
theorem C10_filter_early_return_witness :
    exSingle.int_points1.length < 2 ∧
    filterDuplicatedIntersections exSingle = exSingle :=
  ⟨by decide, C10_filter_early_return exSingle (by decide)⟩

/-- C7: every record emitted by the collector is appended at the end of the
list, and its arc_length is 0 exactly when the split length reaches the
edge's end vertex under epsilon (the point coincides with the end vertex)
and the next edge's arc length is 0 (the wrap tie-break), and otherwise
equals edge.arc_length + len, with len given by the three sub-shape cases
of the spec (lenOfSplit). -/
theorem C7_collector_arc_length (E : Nat → EdgeRec) (edge : Nat)
    (pt : Pt) (s0 : Option ℤ) (rest : List (Option ℤ))
    (int_points : List IntPoint) :
    (addToIntPoints E edge pt (s0 :: rest) int_points).length
        = int_points.length + 1 ∧
    ((addToIntPoints E edge pt (s0 :: rest) int_points).getD
        int_points.length default).arc_length =
      (if Utils.EQ (lenOfSplit E edge s0 rest) (E edge).length = true ∧
          (E (E edge).next).arc_length = 0 then 0
       else (E edge).arc_length + lenOfSplit E edge s0 rest) := by
  constructor
  · simp [addToIntPoints]
  · have h := getD_append_len (α := IntPoint) int_points
    cases h1 : Utils.EQ (lenOfSplit E edge s0 rest) 0 <;>
      cases h2 : Utils.EQ (lenOfSplit E edge s0 rest) (E edge).length <;>
        simp [addToIntPoints, h1, h2, h, START_VERTEX, END_VERTEX]

/-- C2, the failing evaluation: on exChainPts the excisor deletes the chain
between the first crossing (a from-pull of two records) and the next
crossing, clears edge_after on the first record of the pull, but leaves
edge_after set on the second record of the same pull. -/
theorem C2_pull_not_cleared :
    (removeNotRelevantChains exChainE BOOLEAN_UNION true exChainF
        exChainPts).2.2.getD 0 default =
      { cface := 0, edge_from := some 10, edge_to := some 11,
        removed := true } ∧
    intPointsPullCount exChainPts 0 (some 0) = 2 ∧
    ((removeNotRelevantChains exChainE BOOLEAN_UNION true exChainF
        exChainPts).2.1.getD 0 default).edge_after = none ∧
    ((removeNotRelevantChains exChainE BOOLEAN_UNION true exChainF
        exChainPts).2.1.getD 1 default).edge_after = some 10 := by
  decide

/-- C6, the counterexample: on exSortPrim the sorter produces a maximal run
of two records with equal arc length on one face that do not share
edge_before, so an equal-arc-length run is not always a pull. -/
theorem C6_runs_counterexample : sortedRunsSharePull exSortPrim = false := by
  decide

/-- Appending a decision whose removed flag is the engine's condition on its
own chain edges preserves the trace property. -/
theorem trace_ext (E : Nat → EdgeRec) (op : Nat) (is_res : Bool)
    (tr : List ChainDecision) (cf : Nat) (ef et : Option Nat)
    (h : ∀ d ∈ tr, d.removed = removeCond E op is_res d.edge_from d.edge_to) :
    ∀ d ∈ tr ++ [ChainDecision.mk cf ef et (removeCond E op is_res ef et)],
      d.removed = removeCond E op is_res d.edge_from d.edge_to := by
  intro d hd
  rcases List.mem_append.1 hd with h1 | h2
  · exact h d h1
  · rw [List.mem_singleton] at h2
    subst h2
    rfl

/-- Every decision recorded by the excisor's loop has its removed flag equal
to the engine's removal condition evaluated on the recorded chain edges. -/
theorem rnrcAux_trace (E : Nat → EdgeRec) (op : Nat) (is_res : Bool) :
    ∀ (fuel : Nat) (fE : Nat → List Nat) (pts : List IntPoint)
      (tr : List ChainDecision) (i : Nat) (cf : Option (Option Nat))
      (fn : Nat),
      (∀ d ∈ tr, d.removed = removeCond E op is_res d.edge_from d.edge_to) →
      ∀ d ∈ (removeNotRelevantChainsAux E op is_res fuel fE pts tr i
              cf fn).2.2,
        d.removed = removeCond E op is_res d.edge_from d.edge_to := by
  intro fuel
  induction fuel with
  | zero => intro fE pts tr i cf fn h d hd; exact h d hd
  | succ fuel ih =>
    intro fE pts tr i cf fn h d hd
    rw [removeNotRelevantChainsAux] at hd
    split at hd
    · dsimp only at hd
      repeat' split at hd
      all_goals
        first
        | exact ih _ _ _ _ _ _ h d hd
        | exact ih _ _ _ _ _ _ (trace_ext E op is_res tr _ _ _ h) d hd
    · exact h d hd

/-- The engine's removal condition is equivalent to the specification's
six-case excision rule, provided every overlap flag is unset, SAME or
OPPOSITE (the classifier writes no other value). -/
theorem removeCond_iff_spec (E : Nat → EdgeRec) (op : Nat) (is_res : Bool)
    (ef et : Option Nat)
    (hov : ∀ e : Nat, (E e).overlap = 0 ∨ (E e).overlap = OVERLAP_SAME ∨
           (E e).overlap = OVERLAP_OPPOSITE) :
    (removeCond E op is_res ef et = true ↔
      specExcisionRule E op is_res ef et) := by
  have hov' : (match ef with
               | some e => (E e).overlap
               | none => 0) = 0 ∨
      (match ef with
       | some e => (E e).overlap
       | none => 0) = OVERLAP_SAME ∨
      (match ef with
       | some e => (E e).overlap
       | none => 0) = OVERLAP_OPPOSITE := by
    cases ef with
    | none => exact Or.inl rfl
    | some e => exact hov e
  simp only [removeCond, specExcisionRule, decide_eq_true_eq]
  revert hov'
  generalize (match ef with
              | some e => (E e).overlap
              | none => 0) = ovf
  generalize (ef.bind fun e => (E e).bv) = bvf
  generalize (et.bind fun e => (E e).bv) = bvt
  intro hov'
  rcases hov' with hv | hv | hv <;> subst hv <;>
    simp only [OVERLAP_SAME, OVERLAP_OPPOSITE] <;> norm_num <;> itauto

/-- C5: every chain considered by removeNotRelevantChains — the chain from
cur.edge_after to next.edge_before for a processed crossing cur on a
non-empty face, with next the following crossing on the same face (wrapping
to the face's first crossing) — is removed exactly when the six-case rule
of the specification holds for the operator, the result flag and the two
end edges. -/
theorem C5_excision_rule (E : Nat → EdgeRec) (op : Nat) (is_res : Bool)
    (fE : Nat → List Nat) (pts : List IntPoint)
    (hov : ∀ e : Nat, (E e).overlap = 0 ∨ (E e).overlap = OVERLAP_SAME ∨
           (E e).overlap = OVERLAP_OPPOSITE) :
    ∀ d ∈ (removeNotRelevantChains E op is_res fE pts).2.2,
      (d.removed = true ↔
        specExcisionRule E op is_res d.edge_from d.edge_to) := by
  intro d hd
  have ht := rnrcAux_trace E op is_res (pts.length + 1) fE pts [] 0 none 0
    (by intro d' hd'; cases hd') d hd
  rw [ht]
  exact removeCond_iff_spec E op is_res d.edge_from d.edge_to hov

/-- Witness for C5: on the concrete excision example the recorded removal of
the chain from edge 10 to edge 11 satisfies the specification's rule. -/
theorem C5_excision_rule_witness :
    specExcisionRule exChainE BOOLEAN_UNION true (some 10) (some 11) := by
  have hov : ∀ e : Nat, (exChainE e).overlap = 0 ∨
      (exChainE e).overlap = OVERLAP_SAME ∨
      (exChainE e).overlap = OVERLAP_OPPOSITE := by
    intro e; unfold exChainE; split_ifs <;> exact Or.inl rfl
  have h := C5_excision_rule exChainE BOOLEAN_UNION true exChainF exChainPts
    hov
  have hm : ChainDecision.mk 0 (some 10) (some 11) true ∈
      (removeNotRelevantChains exChainE BOOLEAN_UNION true exChainF
        exChainPts).2.2 := by decide
  exact (h _ hm).mp rfl

/-- The stable insertion produces a permutation of the inserted element and
the old list. -/
theorem insertSorted_perm (prim : List IntPoint) (j : Nat) :
    ∀ l : List Nat, (insertSorted prim j l).Perm (j :: l) := by
  intro l
  induction l with
  | nil => exact List.Perm.refl _
  | cons k rest ih =>
    unfold insertSorted
    split
    · exact (List.Perm.cons k ih).trans (List.Perm.swap j k rest)
    · exact List.Perm.refl _

/-- Folding the stable insertion over a list of indices permutes them onto
the accumulator. -/
theorem foldl_insertSorted_perm (prim : List IntPoint) :
    ∀ (l acc : List Nat),
      (l.foldl (fun a j => insertSorted prim j a) acc).Perm (l ++ acc) := by
  intro l
  induction l with
  | nil => intro acc; simp
  | cons x t ih =>
    intro acc
    refine ((ih (insertSorted prim x acc)).trans ?_)
    have h1 : (t ++ insertSorted prim x acc).Perm (t ++ (x :: acc)) :=
      List.Perm.append_left t (insertSorted_perm prim x acc)
    have h2 : (t ++ (x :: acc)).Perm (x :: (t ++ acc)) := List.perm_middle
    exact h1.trans h2

/-- The sorted index list is a permutation of the index range. -/
theorem sortIndices_perm (prim : List IntPoint) :
    (sortIndices prim).Perm (List.range prim.length) := by
  have h := foldl_insertSorted_perm prim (List.range prim.length) []
  simpa [sortIndices] using h

/-- An epsilon-greater pair is epsilon-less in the flipped order. -/
theorem LT_of_GT (x y : ℤ) (h : Utils.GT x y = true) :
    Utils.LT y x = true := by
  simp only [Utils.GT, decide_eq_true_eq, DP_TOL] at h
  simp only [Utils.LT, decide_eq_true_eq, DP_TOL]
  omega

/-- An epsilon-less pair is not epsilon-greater. -/
theorem GT_false_of_LT (x y : ℤ) (h : Utils.LT x y = true) :
    Utils.GT x y = false := by
  simp only [Utils.LT, decide_eq_true_eq, DP_TOL] at h
  simp only [Utils.GT, DP_TOL, decide_eq_false_iff_not]
  omega

/-- compareFn is antisymmetric in sign: a strictly positive comparison flips
to a strictly negative one. -/
theorem compareFn_flip (a b : IntPoint) (h : ¬ compareFn a b ≤ 0) :
    compareFn b a ≤ 0 := by
  unfold compareFn at *
  by_cases h1 : a.faceId.getD 0 < b.faceId.getD 0
  · rw [if_pos h1] at h
    norm_num at h
  · by_cases h2 : b.faceId.getD 0 < a.faceId.getD 0
    · rw [if_pos h2]
      norm_num
    · rw [if_neg h1, if_neg h2] at h
      rw [if_neg h2, if_neg h1]
      by_cases h3 : Utils.LT a.arc_length b.arc_length = true
      · rw [if_pos h3] at h
        norm_num at h
      · rw [if_neg h3] at h
        by_cases h4 : Utils.GT a.arc_length b.arc_length = true
        · rw [if_pos (LT_of_GT _ _ h4)]
          norm_num
        · rw [if_neg h4] at h
          norm_num at h

/-- The head of an insertion is the inserted index or the old head. -/
theorem insertSorted_head (prim : List IntPoint) (j : Nat) (l : List Nat) :
    (insertSorted prim j l).head? = some j ∨
    (insertSorted prim j l).head? = l.head? := by
  cases l with
  | nil => exact Or.inl rfl
  | cons k rest =>
    unfold insertSorted
    split
    · exact Or.inr rfl
    · exact Or.inl rfl

/-- The stable insertion preserves adjacent sortedness. -/
theorem insertSorted_adj (prim : List IntPoint) (j : Nat) :
    ∀ l : List Nat, AdjOK prim l → AdjOK prim (insertSorted prim j l) := by
  intro l
  induction l with
  | nil => intro _; simp [insertSorted, AdjOK]
  | cons k rest ih =>
    intro h
    unfold insertSorted
    split
    · rename_i hc
      have h' := (List.chain'_cons'.1 h)
      refine List.chain'_cons'.2 ⟨?_, ih h'.2⟩
      intro y hy
      rcases insertSorted_head prim j rest with hh | hh
      · rw [hh] at hy
        simp only [Option.mem_def, Option.some.injEq] at hy
        subst hy
        exact hc
      · rw [hh] at hy
        exact h'.1 y hy
    · rename_i hc
      exact List.chain'_cons'.2 ⟨by
        intro y hy
        simp only [List.head?_cons, Option.mem_def, Option.some.injEq] at hy
        subst hy
        exact compareFn_flip _ _ hc, h⟩

/-- The sorted index list is adjacent-sorted under compareFn. -/
theorem sortIndices_adj (prim : List IntPoint) : AdjOK prim (sortIndices prim) := by
  unfold sortIndices
  have : ∀ (l acc : List Nat), AdjOK prim acc →
      AdjOK prim (l.foldl (fun a j => insertSorted prim j a) acc) := by
    intro l
    induction l with
    | nil => intro acc h; exact h
    | cons x t ih => intro acc h; exact ih _ (insertSorted_adj prim x acc h)
  exact this _ [] List.chain'_nil

/-- Unfolding a non-positive compareFn result: the face ids are ordered, and
on the same face the arc lengths are not epsilon-greater. -/
theorem compareFn_le_dest (a b : IntPoint) (h : compareFn a b ≤ 0) :
    a.faceId.getD 0 ≤ b.faceId.getD 0 ∧
    (a.faceId.getD 0 = b.faceId.getD 0 →
      Utils.GT a.arc_length b.arc_length = false) := by
  unfold compareFn at h
  by_cases h1 : a.faceId.getD 0 < b.faceId.getD 0
  · exact ⟨Nat.le_of_lt h1, fun he => by omega⟩
  · rw [if_neg h1] at h
    by_cases h2 : b.faceId.getD 0 < a.faceId.getD 0
    · rw [if_pos h2] at h
      norm_num at h
    · rw [if_neg h2] at h
      refine ⟨by omega, fun _ => ?_⟩
      by_cases h3 : Utils.LT a.arc_length b.arc_length = true
      · exact GT_false_of_LT _ _ h3
      · rw [if_neg h3] at h
        by_cases h4 : Utils.GT a.arc_length b.arc_length = true
        · rw [if_pos h4] at h
          norm_num at h
        · exact Bool.eq_false_iff.2 h4

/-- Every collected face is listed in the first-seen face map. -/
theorem buildFaceMap_mem_aux :
    ∀ (l : List IntPoint) (acc : List (Option Nat)),
      (∀ x ∈ acc, x ∈ l.foldl
        (fun a ip => if ip.face ∈ a then a else a ++ [ip.face]) acc) ∧
      (∀ ip ∈ l, ip.face ∈ l.foldl
        (fun a ip => if ip.face ∈ a then a else a ++ [ip.face]) acc) := by
  intro l
  induction l with
  | nil => intro acc; exact ⟨fun x hx => hx, fun ip h => absurd h (List.not_mem_nil _)⟩
  | cons a t ih =>
    intro acc
    constructor
    · intro x hx
      simp only [List.foldl_cons]
      apply (ih _).1
      split
      · exact hx
      · exact List.mem_append_left _ hx
    · intro ip hip
      simp only [List.foldl_cons]
      rcases List.mem_cons.1 hip with he | ht
      · subst he
        apply (ih _).1
        split
        · assumption
        · exact List.mem_append_right _ (List.mem_singleton.2 rfl)
      · exact (ih _).2 ip ht

/-- The first-seen face map has no duplicate faces (the ids are dense). -/
theorem buildFaceMap_nodup (ips : List IntPoint) :
    (buildFaceMap ips).Nodup := by
  unfold buildFaceMap
  have : ∀ (l : List IntPoint) (acc : List (Option Nat)), acc.Nodup →
      (l.foldl (fun a ip => if ip.face ∈ a then a else a ++ [ip.face])
        acc).Nodup := by
    intro l
    induction l with
    | nil => intro acc h; exact h
    | cons a t ih =>
      intro acc h
      simp only [List.foldl_cons]
      apply ih
      split
      · exact h
      · rename_i hm
        refine List.Nodup.append h (List.nodup_singleton _) ?_
        intro x hx hx2
        rw [List.mem_singleton] at hx2
        subst hx2
        exact hm hx
  exact this _ [] List.nodup_nil

/-- Finding a present value in a list returns an index pointing at it. -/
theorem findIdx_getD {v : Option Nat} :
    ∀ l : List (Option Nat), v ∈ l →
      ∃ k, l.findIdx? (fun f => decide (f = v)) = some k ∧
        l.getD k none = v := by
  intro l
  induction l with
  | nil => intro h; exact absurd h (List.not_mem_nil _)
  | cons a t ih =>
    intro h
    rw [List.findIdx?_cons]
    by_cases ha : a = v
    · subst ha
      exact ⟨0, by simp, rfl⟩
    · have ht : v ∈ t := by
        rcases List.mem_cons.1 h with he | ht
        · exact absurd he.symm ha
        · exact ht
      rcases ih ht with ⟨k, hk1, hk2⟩
      refine ⟨k + 1, ?_, hk2⟩
      simp [ha, hk1]

/-- C6 (amended): the sorter's output is a permutation of the record
indices, grouped by faceId in ascending order, and within a face the arc
lengths of adjacent sorted records are never epsilon-greater (non-decreasing
under the oracle's comparison); faceId values are stamped densely from the
duplicate-free first-seen face map. Maximal equal-arc-length runs need not
share edge_before (see the counterexample), so the pull part of the claim
is dropped. -/
theorem C6_sorter_order (prim : List IntPoint) :
    ((getSortedArray prim).2.Perm (List.range prim.length)) ∧
    (List.Chain' (fun a b =>
      ((getSortedArray prim).1.getD a default).faceId.getD 0 ≤
        ((getSortedArray prim).1.getD b default).faceId.getD 0 ∧
      (((getSortedArray prim).1.getD a default).faceId.getD 0 =
          ((getSortedArray prim).1.getD b default).faceId.getD 0 →
        Utils.GT ((getSortedArray prim).1.getD a default).arc_length
          ((getSortedArray prim).1.getD b default).arc_length = false))
      (getSortedArray prim).2) ∧
    ((buildFaceMap prim).Nodup) ∧
    (∀ ip ∈ (getSortedArray prim).1, ∃ k, ip.faceId = some k ∧
      (buildFaceMap prim).getD k none = ip.face) := by
  refine ⟨?_, ?_, buildFaceMap_nodup prim, ?_⟩
  · have h := sortIndices_perm (stampFaceIds prim)
    have hl : (stampFaceIds prim).length = prim.length := by
      simp [stampFaceIds]
    rw [hl] at h
    exact h
  · have h := sortIndices_adj (stampFaceIds prim)
    exact List.Chain'.imp (fun a b hab => compareFn_le_dest _ _ hab) h
  · intro ip hip
    unfold getSortedArray stampFaceIds at hip
    simp only [List.mem_map] at hip
    rcases hip with ⟨q, hq, he⟩
    have hm : q.face ∈ buildFaceMap prim :=
      (buildFaceMap_mem_aux prim []).2 q hq
    rcases findIdx_getD (buildFaceMap prim) hm with ⟨k, hk1, hk2⟩
    subst he
    exact ⟨k, by simpa using hk1, hk2⟩

/-- Witness for C6 (amended) at the concrete sorter example. -/
theorem C6_sorter_order_witness :
    ((getSortedArray exSortPrim).2.Perm (List.range 2)) ∧
    (buildFaceMap exSortPrim).Nodup := by
  have h := C6_sorter_order exSortPrim
  exact ⟨by simpa using h.1, h.2.2.1⟩

/-- Epsilon equality is reflexive. -/
theorem EQ_refl (x : ℤ) : Utils.EQ x x = true := by
  simp [Utils.EQ, DP_TOL]

/-- Point epsilon equality is reflexive. -/
theorem ptEqualTo_refl (x : Pt) : x.equalTo x = true := by
  simp [Pt.equalTo, EQ_refl]

/-- Reading back the written position of a list. -/
theorem getD_set_self {α : Type} [Inhabited α] :
    ∀ (l : List α) (j : Nat) (v : α), j < l.length →
      (l.set j v).getD j default = v := by
  intro l
  induction l with
  | nil => intro j v h; simp at h
  | cons a t ih =>
    intro j v h
    cases j with
    | zero => rfl
    | succ k =>
      have := ih k v (by simpa using h)
      simpa using this

/-- Reading another position after a write. -/
theorem getD_set_ne {α : Type} [Inhabited α] :
    ∀ (l : List α) (j k : Nat) (v : α), k ≠ j →
      (l.set j v).getD k default = l.getD k default := by
  intro l
  induction l with
  | nil => intro j k v _; simp
  | cons a t ih =>
    intro j k v h
    cases j with
    | zero =>
      cases k with
      | zero => exact absurd rfl h
      | succ m => simp [List.getD]
    | succ jj =>
      cases k with
      | zero => rfl
      | succ m =>
        have := ih jj m v (by omega)
        simpa using this

/-- The fresh-handle counter after an addVertex. -/
theorem addVertex_nextE (p : PolyM) (pt : Pt) (e : Nat) :
    (addVertex p pt e).1.nextE = p.nextE + 1 := rfl

/-- addVertex returns the fresh handle. -/
theorem addVertex_ret (p : PolyM) (pt : Pt) (e : Nat) :
    (addVertex p pt e).2 = p.nextE := rfl

/-- Full description of the edge table after an addVertex. -/
theorem addVertex_E (p : PolyM) (pt : Pt) (e j : Nat) :
    (addVertex p pt e).1.E j =
      if j = p.nextE then
        { startPt := (p.E e).startPt, endPt := pt, length := 0,
          arc_length := (p.E e).arc_length, prev := (p.E e).prev,
          next := e, face := (p.E e).face, bv := none, bvStart := none,
          bvEnd := none, overlap := 0 }
      else if j = (p.E e).prev then
        if j = e then
          { p.E e with startPt := pt, prev := p.nextE, next := p.nextE }
        else { p.E j with next := p.nextE }
      else if j = e then { p.E e with startPt := pt, prev := p.nextE }
      else p.E j := by
  by_cases h1 : j = p.nextE
  · subst h1
    simp [addVertex, updE]
  · by_cases h2 : j = (p.E e).prev
    · by_cases h3 : j = e
      · subst h3
        simp only [addVertex, updE, if_neg h1, if_pos h2, if_pos h2.symm,
          if_pos rfl]
        simp
      · subst h2
        simp only [addVertex, updE, if_neg h1, if_pos rfl, if_neg h3]
    · by_cases h3 : j = e
      · subst h3
        simp only [addVertex, updE, if_neg h1, if_neg h2, if_pos rfl]
      · simp only [addVertex, updE, if_neg h1, if_neg h2, if_neg h3]

/-- The end point of a live edge is unchanged by addVertex. -/
theorem addVertex_endPt (p : PolyM) (pt : Pt) (e j : Nat)
    (hj : j < p.nextE) :
    ((addVertex p pt e).1.E j).endPt = (p.E j).endPt := by
  rw [addVertex_E]
  rw [if_neg (Nat.ne_of_lt hj)]
  split_ifs with h2 h3 h4
  · rw [h3]
  · rfl
  · rw [h4]
  · rfl

/-- The derived well-formedness fact: the previous edge of a live edge ends
where it starts. -/
theorem WFp_prev_end (p : PolyM) (h : WFp p) (e : Nat)
    (he : e < p.nextE) :
    (p.E ((p.E e).prev)).endPt = (p.E e).startPt := by
  have h1 := h e he
  have hq := h ((p.E e).prev) h1.2.1
  have h3 := hq.2.2.1
  rw [h1.2.2.2.2] at h3
  exact h3.symm

/-- Inserting a vertex on a live edge preserves the ring discipline. -/
theorem addVertex_WF (p : PolyM) (pt : Pt) (e : Nat)
    (he : e < p.nextE) (h : WFp p) :
    WFp (addVertex p pt e).1 := by
  have hst := h e he
  have hf : (p.E e).next < p.nextE := hst.1
  have hp0 : (p.E e).prev < p.nextE := hst.2.1
  have hfs : (p.E ((p.E e).next)).startPt = (p.E e).endPt := hst.2.2.1
  have hfp : (p.E ((p.E e).next)).prev = e := hst.2.2.2.1
  have hp0n : (p.E ((p.E e).prev)).next = e := hst.2.2.2.2
  have hen : e ≠ p.nextE := Nat.ne_of_lt he
  have hp0nn : (p.E e).prev ≠ p.nextE := Nat.ne_of_lt hp0
  have hfn : (p.E e).next ≠ p.nextE := Nat.ne_of_lt hf
  have hAnew : (addVertex p pt e).1.E p.nextE =
      ⟨(p.E e).startPt, pt, 0, (p.E e).arc_length, (p.E e).prev, e,
        (p.E e).face, none, none, none, 0⟩ := by
    rw [addVertex_E, if_pos rfl]
  intro i hi
  rw [addVertex_nextE] at hi
  simp only [addVertex_nextE]
  by_cases hp0e : (p.E e).prev = e
  · -- the edge is a one-edge ring: its prev (hence its next) is itself
    have hfe : (p.E e).next = e := by rw [hp0e] at hp0n; exact hp0n
    have hAe : (addVertex p pt e).1.E e =
        { p.E e with startPt := pt, prev := p.nextE, next := p.nextE } := by
      rw [addVertex_E, if_neg hen, if_pos hp0e.symm, if_pos rfl]
    have hAother : ∀ j, j ≠ p.nextE → j ≠ e →
        (addVertex p pt e).1.E j = p.E j := by
      intro j h1 h2
      rw [addVertex_E, if_neg h1, if_neg (fun hh => h2 (hh.trans hp0e)),
        if_neg h2]
    by_cases hin : i = p.nextE
    · rw [hin, hAnew]
      refine ⟨?_, ?_, ?_, ?_, ?_⟩
      · show e < p.nextE + 1
        exact Nat.lt_succ_of_lt he
      · show (p.E e).prev < p.nextE + 1
        exact Nat.lt_succ_of_lt hp0
      · show ((addVertex p pt e).1.E e).startPt = pt
        rw [hAe]
      · show ((addVertex p pt e).1.E e).prev = p.nextE
        rw [hAe]
      · show ((addVertex p pt e).1.E ((p.E e).prev)).next = p.nextE
        rw [hp0e, hAe]
    · by_cases hie : i = e
      · rw [hie, hAe]
        refine ⟨?_, ?_, ?_, ?_, ?_⟩
        · show p.nextE < p.nextE + 1
          exact Nat.lt_succ_self p.nextE
        · show p.nextE < p.nextE + 1
          exact Nat.lt_succ_self p.nextE
        · show ((addVertex p pt e).1.E p.nextE).startPt = (p.E e).endPt
          rw [hAnew]
          show (p.E e).startPt = (p.E e).endPt
          rw [hfe] at hfs
          exact hfs
        · show ((addVertex p pt e).1.E p.nextE).prev = e
          rw [hAnew]
          exact hp0e
        · show ((addVertex p pt e).1.E p.nextE).next = e
          rw [hAnew]
      · have hi2 : i < p.nextE :=
          Nat.lt_of_le_of_ne (Nat.lt_succ_iff.mp hi) hin
        have hsti := h i hi2
        have hnexti : (p.E i).next ≠ e := by
          intro hh
          have h4 := hsti.2.2.2.1
          rw [hh, hp0e] at h4
          exact hie h4.symm
        have hprevi : (p.E i).prev ≠ e := by
          intro hh
          have h5 := hsti.2.2.2.2
          rw [hh, hfe] at h5
          exact hie h5.symm
        have h1 := hAother i hin hie
        have h2 := hAother _ (Nat.ne_of_lt hsti.1) hnexti
        have h3 := hAother _ (Nat.ne_of_lt hsti.2.1) hprevi
        rw [h1]
        refine ⟨Nat.lt_succ_of_lt hsti.1, Nat.lt_succ_of_lt hsti.2.1,
          ?_, ?_, ?_⟩
        · rw [h2]; exact hsti.2.2.1
        · rw [h2]; exact hsti.2.2.2.1
        · rw [h3]; exact hsti.2.2.2.2
  · -- the generic ring: prev, e and the new edge are three distinct slots
    have hfe : (p.E e).next ≠ e := by
      intro hh
      rw [hh] at hfp
      exact hp0e hfp
    have hAe : (addVertex p pt e).1.E e =
        { p.E e with startPt := pt, prev := p.nextE } := by
      rw [addVertex_E, if_neg hen, if_neg (fun hh => hp0e hh.symm),
        if_pos rfl]
    have hAp0 : (addVertex p pt e).1.E ((p.E e).prev) =
        { p.E ((p.E e).prev) with next := p.nextE } := by
      rw [addVertex_E, if_neg hp0nn, if_pos rfl, if_neg hp0e]
    have hAother : ∀ j, j ≠ p.nextE → j ≠ e → j ≠ (p.E e).prev →
        (addVertex p pt e).1.E j = p.E j := by
      intro j h1 h2 h3
      rw [addVertex_E, if_neg h1, if_neg h3, if_neg h2]
    have hstartU : ∀ j, j ≠ p.nextE → j ≠ e →
        ((addVertex p pt e).1.E j).startPt = (p.E j).startPt := by
      intro j h1 h2
      by_cases h3 : j = (p.E e).prev
      · rw [h3, hAp0]
      · rw [hAother j h1 h2 h3]
    have hprevU : ∀ j, j ≠ p.nextE → j ≠ e →
        ((addVertex p pt e).1.E j).prev = (p.E j).prev := by
      intro j h1 h2
      by_cases h3 : j = (p.E e).prev
      · rw [h3, hAp0]
      · rw [hAother j h1 h2 h3]
    by_cases hin : i = p.nextE
    · rw [hin, hAnew]
      refine ⟨?_, ?_, ?_, ?_, ?_⟩
      · show e < p.nextE + 1
        exact Nat.lt_succ_of_lt he
      · show (p.E e).prev < p.nextE + 1
        exact Nat.lt_succ_of_lt hp0
      · show ((addVertex p pt e).1.E e).startPt = pt
        rw [hAe]
      · show ((addVertex p pt e).1.E e).prev = p.nextE
        rw [hAe]
      · show ((addVertex p pt e).1.E ((p.E e).prev)).next = p.nextE
        rw [hAp0]
    · by_cases hie : i = e
      · rw [hie, hAe]
        refine ⟨?_, ?_, ?_, ?_, ?_⟩
        · show (p.E e).next < p.nextE + 1
          exact Nat.lt_succ_of_lt hf
        · show p.nextE < p.nextE + 1
          exact Nat.lt_succ_self p.nextE
        · show ((addVertex p pt e).1.E ((p.E e).next)).startPt
              = (p.E e).endPt
          rw [hstartU _ hfn hfe]
          exact hfs
        · show ((addVertex p pt e).1.E ((p.E e).next)).prev = e
          rw [hprevU _ hfn hfe]
          exact hfp
        · show ((addVertex p pt e).1.E p.nextE).next = e
          rw [hAnew]
      · by_cases hip : i = (p.E e).prev
        · have hstp0 := h ((p.E e).prev) hp0
          rw [hip, hAp0]
          refine ⟨?_, ?_, ?_, ?_, ?_⟩
          · show p.nextE < p.nextE + 1
            exact Nat.lt_succ_self p.nextE
          · show (p.E ((p.E e).prev)).prev < p.nextE + 1
            exact Nat.lt_succ_of_lt hstp0.2.1
          · show ((addVertex p pt e).1.E p.nextE).startPt
                = (p.E ((p.E e).prev)).endPt
            rw [hAnew]
            show (p.E e).startPt = (p.E ((p.E e).prev)).endPt
            have h4 := hstp0.2.2.1
            rw [hp0n] at h4
            exact h4
          · show ((addVertex p pt e).1.E p.nextE).prev = (p.E e).prev
            rw [hAnew]
          · show ((addVertex p pt e).1.E ((p.E ((p.E e).prev)).prev)).next
                = (p.E e).prev
            have hg : (p.E ((p.E ((p.E e).prev)).prev)).next
                = (p.E e).prev := hstp0.2.2.2.2
            have hgn : (p.E ((p.E e).prev)).prev ≠ p.nextE :=
              Nat.ne_of_lt hstp0.2.1
            have hgp0 : (p.E ((p.E e).prev)).prev ≠ (p.E e).prev := by
              intro hh
              rw [hh, hp0n] at hg
              exact hp0e hg.symm
            by_cases hge : (p.E ((p.E e).prev)).prev = e
            · rw [hge, hAe]
              show (p.E e).next = (p.E e).prev
              rw [hge] at hg
              exact hg
            · rw [hAother _ hgn hge hgp0]
              exact hg
        · have hi2 : i < p.nextE :=
          Nat.lt_of_le_of_ne (Nat.lt_succ_iff.mp hi) hin
          have hsti := h i hi2
          have hnexti : (p.E i).next ≠ e := by
            intro hh
            have h4 := hsti.2.2.2.1
            rw [hh] at h4
            exact hip h4.symm
          have h1 := hAother i hin hie hip
          rw [h1]
          refine ⟨Nat.lt_succ_of_lt hsti.1, Nat.lt_succ_of_lt hsti.2.1,
            ?_, ?_, ?_⟩
          · rw [hstartU _ (Nat.ne_of_lt hsti.1) hnexti]
            exact hsti.2.2.1
          · rw [hprevU _ (Nat.ne_of_lt hsti.1) hnexti]
            exact hsti.2.2.2.1
          · have hg := hsti.2.2.2.2
            have hgn : (p.E i).prev ≠ p.nextE := Nat.ne_of_lt hsti.2.1
            have hgp0 : (p.E i).prev ≠ (p.E e).prev := by
              intro hh
              rw [hh, hp0n] at hg
              exact hie hg.symm
            by_cases hge : (p.E i).prev = e
            · rw [hge, hAe]
              show (p.E e).next = i
              rw [hge] at hg
              exact hg
            · rw [hAother _ hgn hge hgp0]
              exact hg

/-- A record with a present edge_before lies inside the list. -/
theorem lt_length_of_eb {prim : List IntPoint} {j : Nat} {b : Nat}
    (h : (prim.getD j default).edge_before = some b) : j < prim.length := by
  by_contra hc
  push_neg at hc
  rw [List.getD_eq_default _ _ hc] at h
  simp at h

/-- Writing a position out of range is a no-op. -/
theorem set_oob {α : Type} :
    ∀ (l : List α) (j : Nat) (v : α), l.length ≤ j → l.set j v = l := by
  intro l
  induction l with
  | nil => intro j v _; cases j <;> rfl
  | cons a t ih =>
    intro j v h
    cases j with
    | zero => simp at h
    | succ m =>
      show a :: t.set m v = a :: t
      rw [ih m v (by simpa using h)]

/-- The basic facts about one record write: length, other positions, points
and the written record. -/
theorem setRecord_facts (prim : List IntPoint) (j : Nat) (v : IntPoint)
    (hj : j < prim.length) (hpt : v.pt = (prim.getD j default).pt) :
    (prim.set j v).length = prim.length ∧
    (∀ k, k ≠ j → (prim.set j v).getD k default = prim.getD k default) ∧
    (∀ k, ((prim.set j v).getD k default).pt = (prim.getD k default).pt) ∧
    (prim.set j v).getD j default = v := by
  refine ⟨by simp, fun k hk => getD_set_ne _ _ _ _ hk, ?_,
    getD_set_self _ _ _ hj⟩
  intro k
  by_cases hk : k = j
  · subst hk
    rw [getD_set_self _ _ _ hj, hpt]
  · rw [getD_set_ne _ _ _ _ hk]

/-- One first-pass step of the splitter: the ring discipline is preserved,
end points of live edges and the other records are untouched, and the
processed record gains a live edge_before ending at its point. -/
theorem splitStep_good (p : PolyM) (prim : List IntPoint) (j : Nat)
    (hw : WFp p) (b : Nat)
    (hb : (prim.getD j default).edge_before = some b)
    (hbe : b < p.nextE) :
    WFp (splitStep (p, prim) j).1 ∧
    p.nextE ≤ (splitStep (p, prim) j).1.nextE ∧
    (∀ x, x < p.nextE →
      ((splitStep (p, prim) j).1.E x).endPt = (p.E x).endPt) ∧
    (splitStep (p, prim) j).2.length = prim.length ∧
    (∀ k, k ≠ j →
      (splitStep (p, prim) j).2.getD k default = prim.getD k default) ∧
    (∀ k, ((splitStep (p, prim) j).2.getD k default).pt
        = (prim.getD k default).pt) ∧
    GoodBefore (splitStep (p, prim) j).1 (splitStep (p, prim) j).2 j := by
  have hjlen : j < prim.length := lt_length_of_eb hb
  by_cases c1 : ((p.E b).startPt.equalTo (prim.getD j default).pt) = true
  · have hstep : splitStep (p, prim) j =
        (p, prim.set j { prim.getD j default with
          edge_before := some ((p.E b).prev), is_vertex := END_VERTEX }) := by
      unfold splitStep
      dsimp only
      rw [hb]
      by_cases c2 : ((p.E b).endPt.equalTo (prim.getD j default).pt) = true
      · simp only [if_pos c1, if_pos c2]
        norm_num [START_VERTEX, END_VERTEX]
      · simp only [if_pos c1, if_neg c2]
        norm_num [START_VERTEX, END_VERTEX]
    rw [hstep]
    have hsf := setRecord_facts prim j
      ({ prim.getD j default with
         edge_before := some ((p.E b).prev), is_vertex := END_VERTEX })
      hjlen rfl
    refine ⟨hw, le_refl _, fun x _ => rfl, hsf.1, hsf.2.1, hsf.2.2.1, ?_⟩
    refine ⟨(p.E b).prev, ?_, (hw b hbe).2.1, ?_⟩
    · rw [hsf.2.2.2]
    · rw [hsf.2.2.2]
      show ((p.E ((p.E b).prev)).endPt.equalTo (prim.getD j default).pt)
          = true
      rw [WFp_prev_end p hw b hbe]
      exact c1
  · by_cases c2 : ((p.E b).endPt.equalTo (prim.getD j default).pt) = true
    · have hstep : splitStep (p, prim) j =
          (p, prim.set j { prim.getD j default with is_vertex := 2 }) := by
        unfold splitStep
        dsimp only
        rw [hb]
        simp only [if_neg c1, if_pos c2]
        norm_num [START_VERTEX, END_VERTEX]
      rw [hstep]
      have hsf := setRecord_facts prim j
        ({ prim.getD j default with is_vertex := 2 }) hjlen rfl
      refine ⟨hw, le_refl _, fun x _ => rfl, hsf.1, hsf.2.1, hsf.2.2.1, ?_⟩
      refine ⟨b, ?_, hbe, ?_⟩
      · rw [hsf.2.2.2]
        exact hb
      · rw [hsf.2.2.2]
        exact c2
    · have hstep : splitStep (p, prim) j =
          ((addVertex p (prim.getD j default).pt b).1,
           prim.set j { prim.getD j default with
             edge_before := some p.nextE, is_vertex := 0 }) := by
        unfold splitStep
        dsimp only
        rw [hb]
        simp only [if_neg c1, if_neg c2]
        norm_num [START_VERTEX, END_VERTEX, addVertex_ret]
    
      rw [hstep]
      have hsf := setRecord_facts prim j
        ({ prim.getD j default with
           edge_before := some p.nextE, is_vertex := 0 }) hjlen rfl
      refine ⟨addVertex_WF p _ b hbe hw, ?_, ?_, hsf.1, hsf.2.1,
        hsf.2.2.1, ?_⟩
      · rw [addVertex_nextE]
        omega
      · intro x hx
        exact addVertex_endPt p _ b x hx
      · refine ⟨p.nextE, ?_, ?_, ?_⟩
        · rw [hsf.2.2.2]
        · rw [addVertex_nextE]
          omega
        · rw [hsf.2.2.2]
          show (((addVertex p (prim.getD j default).pt b).1.E
              p.nextE).endPt.equalTo (prim.getD j default).pt) = true
          rw [addVertex_E, if_pos rfl]
          exact ptEqualTo_refl _

/-- The first pass of the splitter establishes the linkage invariant for all
processed records and preserves it for records that already had it. -/
theorem splitFold_good :
    ∀ (l : List Nat) (p : PolyM) (prim : List IntPoint),
      WFp p →
      (∀ k ∈ l, ValidBefore p prim k) →
      (WFp (l.foldl splitStep (p, prim)).1 ∧
       p.nextE ≤ (l.foldl splitStep (p, prim)).1.nextE ∧
       (∀ x, x < p.nextE →
         ((l.foldl splitStep (p, prim)).1.E x).endPt = (p.E x).endPt) ∧
       (l.foldl splitStep (p, prim)).2.length = prim.length ∧
       (∀ k, ((l.foldl splitStep (p, prim)).2.getD k default).pt
           = (prim.getD k default).pt) ∧
       (∀ k, (GoodBefore p prim k ∨ k ∈ l) →
         GoodBefore (l.foldl splitStep (p, prim)).1
           (l.foldl splitStep (p, prim)).2 k)) := by
  intro l
  induction l with
  | nil =>
    intro p prim hw _
    refine ⟨hw, le_refl _, fun x _ => rfl, rfl, fun k => rfl, ?_⟩
    intro k hk
    rcases hk with hk | hk
    · exact hk
    · cases hk
  | cons j t ih =>
    intro p prim hw hv
    obtain ⟨b, hb, hbe⟩ := hv j (List.mem_cons_self j t)
    have hs := splitStep_good p prim j hw b hb hbe
    simp only [List.foldl_cons]
    have hv2 : ∀ k ∈ t, ValidBefore (splitStep (p, prim) j).1
        (splitStep (p, prim) j).2 k := by
      intro k hk
      by_cases hkj : k = j
      · subst hkj
        obtain ⟨b2, h1, h2, _⟩ := hs.2.2.2.2.2.2
        exact ⟨b2, h1, h2⟩
      · obtain ⟨b2, h1, h2⟩ := hv k (List.mem_cons_of_mem _ hk)
        refine ⟨b2, ?_, lt_of_lt_of_le h2 hs.2.1⟩
        rw [hs.2.2.2.2.1 k hkj]
        exact h1
    have ihs := ih (splitStep (p, prim) j).1 (splitStep (p, prim) j).2
      hs.1 hv2
    refine ⟨ihs.1, le_trans hs.2.1 ihs.2.1, ?_, ?_, ?_, ?_⟩
    · intro x hx
      rw [ihs.2.2.1 x (lt_of_lt_of_le hx hs.2.1), hs.2.2.1 x hx]
    · rw [ihs.2.2.2.1, hs.2.2.2.1]
    · intro k
      rw [ihs.2.2.2.2.1 k, hs.2.2.2.2.2.1 k]
    · intro k hk
      apply ihs.2.2.2.2.2
      rcases hk with hgood | hmem
      · left
        obtain ⟨b0, h1, h2, h3⟩ := hgood
        by_cases hkj : k = j
        · subst hkj
          exact hs.2.2.2.2.2.2
        · refine ⟨b0, ?_, lt_of_lt_of_le h2 hs.2.1, ?_⟩
          · rw [hs.2.2.2.2.1 k hkj]
            exact h1
          · rw [hs.2.2.2.2.1 k hkj, hs.2.2.1 b0 h2]
            exact h3
      · rcases List.mem_cons.1 hmem with hkj | hkt
        · subst hkj
          left
          exact hs.2.2.2.2.2.2
        · right
          exact hkt

/-- Positions not processed by the second pass keep their records. -/
theorem splitAfter_outside (P : PolyM) :
    ∀ (l : List Nat) (prim : List IntPoint) (k : Nat), k ∉ l →
      (l.foldl (splitAfterStep P) prim).getD k default
        = prim.getD k default := by
  intro l
  induction l with
  | nil => intro prim k _; rfl
  | cons j t ih =>
    intro prim k hk
    simp only [List.foldl_cons]
    have hkj : k ≠ j := fun hh => hk (hh ▸ List.mem_cons_self j t)
    have hkt : k ∉ t := fun hh => hk (List.mem_cons_of_mem _ hh)
    rw [ih _ k hkt]
    unfold splitAfterStep
    exact getD_set_ne _ _ _ _ hkj

/-- The second pass keeps lengths, edge_before and points. -/
theorem splitAfter_ebpt (P : PolyM) :
    ∀ (l : List Nat) (prim : List IntPoint),
      (l.foldl (splitAfterStep P) prim).length = prim.length ∧
      ∀ k, ((l.foldl (splitAfterStep P) prim).getD k default).edge_before
            = (prim.getD k default).edge_before ∧
          ((l.foldl (splitAfterStep P) prim).getD k default).pt
            = (prim.getD k default).pt := by
  intro l
  induction l with
  | nil => intro prim; exact ⟨rfl, fun k => ⟨rfl, rfl⟩⟩
  | cons j t ih =>
    intro prim
    simp only [List.foldl_cons]
    have hstep : ∀ k,
        ((splitAfterStep P prim j).getD k default).edge_before
          = (prim.getD k default).edge_before ∧
        ((splitAfterStep P prim j).getD k default).pt
          = (prim.getD k default).pt := by
      intro k
      unfold splitAfterStep
      by_cases hk : k = j
      · subst hk
        by_cases hl : k < prim.length
        · rw [getD_set_self _ _ _ hl]
          exact ⟨rfl, rfl⟩
        · rw [set_oob _ _ _ (le_of_not_lt hl)]
          exact ⟨rfl, rfl⟩
      · rw [getD_set_ne _ _ _ _ hk]
        exact ⟨rfl, rfl⟩
    have iht := ih (splitAfterStep P prim j)
    refine ⟨?_, ?_⟩
    · rw [iht.1]
      unfold splitAfterStep
      simp
    · intro k
      rcases iht.2 k with ⟨h1, h2⟩
      rcases hstep k with ⟨h3, h4⟩
      exact ⟨h1.trans h3, h2.trans h4⟩

/-- The second pass sets edge_after := edge_before.next on every processed
record. -/
theorem splitAfter_ea (P : PolyM) :
    ∀ (l : List Nat) (prim : List IntPoint),
      (∀ k ∈ l, k < prim.length) →
      ∀ k ∈ l,
        ((l.foldl (splitAfterStep P) prim).getD k default).edge_after
          = ((prim.getD k default).edge_before).map
              (fun b => (P.E b).next) := by
  intro l
  induction l with
  | nil => intro prim _ k hk; cases hk
  | cons j t ih =>
    intro prim hlen k hk
    simp only [List.foldl_cons]
    have hslen : (splitAfterStep P prim j).length = prim.length := by
      unfold splitAfterStep
      simp
    by_cases hkt : k ∈ t
    · have hlen2 : ∀ x ∈ t, x < (splitAfterStep P prim j).length := by
        intro x hx
        rw [hslen]
        exact hlen x (List.mem_cons_of_mem _ hx)
      rw [ih (splitAfterStep P prim j) hlen2 k hkt]
      congr 1
      unfold splitAfterStep
      by_cases hkj : k = j
      · subst hkj
        by_cases hl : k < prim.length
        · rw [getD_set_self _ _ _ hl]
        · rw [set_oob _ _ _ (le_of_not_lt hl)]
      · rw [getD_set_ne _ _ _ _ hkj]
    · have hkj : k = j := by
        rcases List.mem_cons.1 hk with h | h
        · exact h
        · exact absurd h hkt
      subst hkj
      rw [splitAfter_outside P t _ k hkt]
      unfold splitAfterStep
      rw [getD_set_self _ _ _ (hlen k hk)]

/-- C4: after splitByIntersections, every processed record has a live
edge_before b, its edge_after is exactly the next edge of b, the shape of b
ends at the record's point under epsilon, and the shape of the next edge
starts at the record's point under epsilon. Hypotheses: the input polygon
rings are well-formed and every processed record enters with a live
edge_before, as produced by the collector. -/
theorem C4_split_linkage (p : PolyM) (prim : List IntPoint)
    (sortedIdx : List Nat)
    (hw : WFp p)
    (hv : ∀ k ∈ sortedIdx, ValidBefore p prim k) :
    ∀ k ∈ sortedIdx, ∃ b,
      (((splitByIntersections p prim sortedIdx).2).getD k
          default).edge_before = some b ∧
      (((splitByIntersections p prim sortedIdx).2).getD k
          default).edge_after
        = some (((splitByIntersections p prim sortedIdx).1.E b).next) ∧
      ((((splitByIntersections p prim sortedIdx).1.E b).endPt).equalTo
          ((((splitByIntersections p prim sortedIdx).2).getD k
            default).pt)) = true ∧
      ((((splitByIntersections p prim sortedIdx).1.E
            (((splitByIntersections p prim sortedIdx).1.E b).next)).startPt).equalTo
          ((((splitByIntersections p prim sortedIdx).2).getD k
            default).pt)) = true := by
  have hsplit : splitByIntersections p prim sortedIdx =
      ((sortedIdx.foldl splitStep (p, prim)).1,
       sortedIdx.foldl
         (splitAfterStep (sortedIdx.foldl splitStep (p, prim)).1)
         (sortedIdx.foldl splitStep (p, prim)).2) := rfl
  intro k hk
  rw [hsplit]
  have hfd := splitFold_good sortedIdx p prim hw hv
  obtain ⟨b, h1, h2, h3⟩ := hfd.2.2.2.2.2 k (Or.inr hk)
  have hlen : ∀ x ∈ sortedIdx,
      x < (sortedIdx.foldl splitStep (p, prim)).2.length := by
    intro x hx
    obtain ⟨bx, hbx, _, _⟩ := hfd.2.2.2.2.2 x (Or.inr hx)
    exact lt_length_of_eb hbx
  have hea := splitAfter_ea (sortedIdx.foldl splitStep (p, prim)).1
    sortedIdx (sortedIdx.foldl splitStep (p, prim)).2 hlen k hk
  have hebpt := splitAfter_ebpt (sortedIdx.foldl splitStep (p, prim)).1
    sortedIdx (sortedIdx.foldl splitStep (p, prim)).2
  refine ⟨b, ?_, ?_, ?_, ?_⟩
  · show ((sortedIdx.foldl
        (splitAfterStep (sortedIdx.foldl splitStep (p, prim)).1)
        (sortedIdx.foldl splitStep (p, prim)).2).getD k
        default).edge_before = some b
    rw [(hebpt.2 k).1]
    exact h1
  · show ((sortedIdx.foldl
        (splitAfterStep (sortedIdx.foldl splitStep (p, prim)).1)
        (sortedIdx.foldl splitStep (p, prim)).2).getD k
        default).edge_after = _
    rw [hea, h1]
    rfl
  · show (((sortedIdx.foldl splitStep (p, prim)).1.E b).endPt.equalTo
      ((sortedIdx.foldl
        (splitAfterStep (sortedIdx.foldl splitStep (p, prim)).1)
        (sortedIdx.foldl splitStep (p, prim)).2).getD k default).pt) = true
    rw [(hebpt.2 k).2]
    exact h3
  · show (((sortedIdx.foldl splitStep (p, prim)).1.E
      (((sortedIdx.foldl splitStep (p, prim)).1.E b).next)).startPt.equalTo
      ((sortedIdx.foldl
        (splitAfterStep (sortedIdx.foldl splitStep (p, prim)).1)
        (sortedIdx.foldl splitStep (p, prim)).2).getD k default).pt) = true
    rw [(hebpt.2 k).2, (hfd.1 b h2).2.2.1]
    exact h3

/-- Witness for C4 on the concrete two-edge polygon with one interior
crossing. -/
theorem C4_split_linkage_witness :
    ∃ b,
      (((splitByIntersections exSplitPoly exSplitPts [0]).2).getD 0
          default).edge_before = some b ∧
      (((splitByIntersections exSplitPoly exSplitPts [0]).2).getD 0
          default).edge_after
        = some (((splitByIntersections exSplitPoly exSplitPts [0]).1.E
            b).next) ∧
      ((((splitByIntersections exSplitPoly exSplitPts [0]).1.E b).endPt).equalTo
          ((((splitByIntersections exSplitPoly exSplitPts [0]).2).getD 0
            default).pt)) = true ∧
      ((((splitByIntersections exSplitPoly exSplitPts [0]).1.E
            (((splitByIntersections exSplitPoly exSplitPts [0]).1.E
              b).next)).startPt).equalTo
          ((((splitByIntersections exSplitPoly exSplitPts [0]).2).getD 0
            default).pt)) = true := by
  have hw : WFp exSplitPoly := by
    intro i hi
    have h2 : i < 2 := hi
    interval_cases i <;> decide
  have hv : ∀ k ∈ [0], ValidBefore exSplitPoly exSplitPts k := by
    intro k hk
    rw [List.mem_singleton] at hk
    subst hk
    exact ⟨0, by decide, by decide⟩
  exact C4_split_linkage exSplitPoly exSplitPts [0] hw hv 0 (by decide)

/-- Reading a position strictly inside the left part of an append. -/
theorem getD_append_lt {α : Type} [Inhabited α] :
    ∀ (l : List α) (r : α) (k : Nat), k < l.length →
      (l ++ [r]).getD k default = l.getD k default := by
  intro l
  induction l with
  | nil => intro r k hk; simp at hk
  | cons a t ih =>
    intro r k hk
    cases k with
    | zero => rfl
    | succ m =>
      have := ih r m (by simpa using hk)
      simpa using this

/-- With at least one sub-shape, the collector appends exactly one record
carrying the next id and the crossing point. -/
theorem addToIntPoints_cons (E : Nat → EdgeRec) (edge : Nat) (pt : Pt)
    (s0 : Option ℤ) (rest : List (Option ℤ)) (ips : List IntPoint) :
    ∃ r : IntPoint,
      addToIntPoints E edge pt (s0 :: rest) ips = ips ++ [r] ∧
      r.id = (ips.length : Int) ∧ r.pt = pt :=
  ⟨_, rfl, rfl, rfl⟩

/-- Appending one record with the next id and a shared point on each side
preserves the pairing invariant. -/
theorem paired_step (p1 p2 : List IntPoint) (r1 r2 : IntPoint)
    (hp : Paired p1 p2)
    (hid1 : r1.id = (p1.length : Int)) (hid2 : r2.id = (p2.length : Int))
    (hpt : r1.pt = r2.pt) :
    Paired (p1 ++ [r1]) (p2 ++ [r2]) := by
  obtain ⟨hlen, hpw⟩ := hp
  refine ⟨by simp [hlen], ?_⟩
  intro k hk
  have hk' : k < p1.length + 1 := by simpa using hk
  by_cases hlt : k < p1.length
  · rw [getD_append_lt _ _ _ hlt,
      getD_append_lt _ _ _ (show k < p2.length by rw [← hlen]; exact hlt)]
    exact hpw k hlt
  · have hke : k = p1.length := by omega
    subst hke
    have h2 : (p2 ++ [r2]).getD p1.length default = r2 := by
      rw [hlen]; exact getD_append_len _ _
    rw [getD_append_len, h2]
    refine ⟨hpt, hid1, ?_⟩
    rw [hid2, hlen]

/-- The collector's fold preserves the pairing invariant whenever the split
oracle reports at least one sub-shape for every crossing. -/
theorem getIntersections_aux (E1 E2 : Nat → EdgeRec)
    (sp1 sp2 : Nat → Pt → List (Option ℤ)) :
    ∀ (cs : List Crossing) (st : List IntPoint × List IntPoint),
      (∀ c ∈ cs, sp1 c.e1 c.pt ≠ [] ∧ sp2 c.e2 c.pt ≠ []) →
      Paired st.1 st.2 →
      Paired
        (cs.foldl (fun st c =>
          (addToIntPoints E1 c.e1 c.pt (sp1 c.e1 c.pt) st.1,
           addToIntPoints E2 c.e2 c.pt (sp2 c.e2 c.pt) st.2)) st).1
        (cs.foldl (fun st c =>
          (addToIntPoints E1 c.e1 c.pt (sp1 c.e1 c.pt) st.1,
           addToIntPoints E2 c.e2 c.pt (sp2 c.e2 c.pt) st.2)) st).2 := by
  intro cs
  induction cs with
  | nil => intro st _ hp; exact hp
  | cons c t ih =>
    intro st hsp hp
    simp only [List.foldl_cons]
    apply ih
    · intro d hd
      exact hsp d (List.mem_cons_of_mem c hd)
    · obtain ⟨h1, h2⟩ := hsp c (List.mem_cons_self c t)
      dsimp only
      rcases hx1 : sp1 c.e1 c.pt with _ | ⟨s0, rest⟩
      · exact absurd hx1 h1
      rcases hx2 : sp2 c.e2 c.pt with _ | ⟨t0, trest⟩
      · exact absurd hx2 h2
      obtain ⟨r1, he1, hi1, hp1⟩ := addToIntPoints_cons E1 c.e1 c.pt s0 rest st.1
      obtain ⟨r2, he2, hi2, hp2⟩ := addToIntPoints_cons E2 c.e2 c.pt t0 trest st.2
      rw [he1, he2]
      exact paired_step st.1 st.2 r1 r2 hp hi1 hi2 (by rw [hp1, hp2])

/-- The two collected lists are paired: equal lengths, ids equal to the list
positions, identical points pairwise. -/
theorem getIntersections_paired (E1 E2 : Nat → EdgeRec)
    (sp1 sp2 : Nat → Pt → List (Option ℤ)) (crossings : List Crossing)
    (hsp : ∀ c ∈ crossings, sp1 c.e1 c.pt ≠ [] ∧ sp2 c.e2 c.pt ≠ []) :
    Paired (getIntersections E1 E2 sp1 sp2 crossings).1
      (getIntersections E1 E2 sp1 sp2 crossings).2 :=
  getIntersections_aux E1 E2 sp1 sp2 crossings ([], [])
    hsp ⟨rfl, fun k hk => absurd hk (Nat.not_lt_zero k)⟩

/-- Reading a mapped list inside its bounds. -/
theorem getD_map_lt {α β : Type} [Inhabited α] [Inhabited β] (g : α → β) :
    ∀ (l : List α) (k : Nat), k < l.length →
      (l.map g).getD k default = g (l.getD k default) := by
  intro l
  induction l with
  | nil => intro k hk; simp at hk
  | cons a t ih =>
    intro k hk
    cases k with
    | zero => rfl
    | succ m =>
      have := ih m (by simpa using hk)
      simpa using this

/-- Stamping face ids touches neither ids nor points, so it preserves the
pairing invariant. -/
theorem stamp_paired (p1 p2 : List IntPoint) (hp : Paired p1 p2) :
    Paired (stampFaceIds p1) (stampFaceIds p2) := by
  obtain ⟨hlen, hpw⟩ := hp
  constructor
  · simp [stampFaceIds, hlen]
  · intro k hk
    have hk1 : k < p1.length := by simpa [stampFaceIds] using hk
    have hk2 : k < p2.length := by rw [← hlen]; exact hk1
    unfold stampFaceIds
    dsimp only
    rw [getD_map_lt _ p1 k hk1, getD_map_lt _ p2 k hk2]
    exact ⟨(hpw k hk1).1, (hpw k hk1).2.1, (hpw k hk1).2.2⟩

/-- Writing a record that keeps the id and the point of the overwritten
position preserves both fields at every position, and the length. -/
theorem set_keep_idpt (pr : List IntPoint) (j : Nat) (v : IntPoint)
    (hid : v.id = (pr.getD j default).id)
    (hpt : v.pt = (pr.getD j default).pt) :
    (pr.set j v).length = pr.length ∧
    ∀ k, ((pr.set j v).getD k default).id = (pr.getD k default).id ∧
         ((pr.set j v).getD k default).pt = (pr.getD k default).pt := by
  refine ⟨by simp, ?_⟩
  intro k
  by_cases hk : k = j
  · subst hk
    by_cases hl : k < pr.length
    · rw [getD_set_self _ _ _ hl]
      exact ⟨hid, hpt⟩
    · rw [set_oob _ _ _ (Nat.le_of_not_lt hl)]
      exact ⟨rfl, rfl⟩
  · rw [getD_set_ne _ _ _ _ hk]
    exact ⟨rfl, rfl⟩

/-- One first-pass splitter step keeps every record's id and point. -/
theorem splitStep_idpt (st : PolyM × List IntPoint) (j : Nat) :
    (splitStep st j).2.length = st.2.length ∧
    ∀ k, ((splitStep st j).2.getD k default).id = (st.2.getD k default).id ∧
         ((splitStep st j).2.getD k default).pt = (st.2.getD k default).pt := by
  rcases heb : (st.2.getD j default).edge_before with _ | e
  · have hstep : splitStep st j = st := by
      unfold splitStep
      dsimp only
      rw [heb]
    rw [hstep]
    exact ⟨rfl, fun k => ⟨rfl, rfl⟩⟩
  · by_cases c1 : ((st.1.E e).startPt.equalTo (st.2.getD j default).pt) = true
    · have hstep : splitStep st j =
          (st.1, st.2.set j { st.2.getD j default with
            edge_before := some ((st.1.E e).prev),
            is_vertex := END_VERTEX }) := by
        unfold splitStep
        dsimp only
        rw [heb]
        by_cases c2 : ((st.1.E e).endPt.equalTo (st.2.getD j default).pt) = true
        · simp only [if_pos c1, if_pos c2]
          norm_num [START_VERTEX, END_VERTEX]
        · simp only [if_pos c1, if_neg c2]
          norm_num [START_VERTEX, END_VERTEX]
      rw [hstep]
      exact set_keep_idpt st.2 j _ rfl rfl
    · by_cases c2 : ((st.1.E e).endPt.equalTo (st.2.getD j default).pt) = true
      · have hstep : splitStep st j =
            (st.1, st.2.set j { st.2.getD j default with is_vertex := 2 }) := by
          unfold splitStep
          dsimp only
          rw [heb]
          simp only [if_neg c1, if_pos c2]
          norm_num [START_VERTEX, END_VERTEX]
        rw [hstep]
        exact set_keep_idpt st.2 j _ rfl rfl
      · have hstep : splitStep st j =
            ((addVertex st.1 (st.2.getD j default).pt e).1,
             st.2.set j { st.2.getD j default with
               edge_before := some st.1.nextE, is_vertex := 0 }) := by
          unfold splitStep
          dsimp only
          rw [heb]
          simp only [if_neg c1, if_neg c2]
          norm_num [START_VERTEX, END_VERTEX, addVertex_ret]
        rw [hstep]
        exact set_keep_idpt st.2 j _ rfl rfl

/-- The whole first pass of the splitter keeps every record's id and
point. -/
theorem splitFold_idpt :
    ∀ (l : List Nat) (st : PolyM × List IntPoint),
      (l.foldl splitStep st).2.length = st.2.length ∧
      ∀ k, ((l.foldl splitStep st).2.getD k default).id
              = (st.2.getD k default).id ∧
           ((l.foldl splitStep st).2.getD k default).pt
              = (st.2.getD k default).pt := by
  intro l
  induction l with
  | nil => intro st; exact ⟨rfl, fun k => ⟨rfl, rfl⟩⟩
  | cons j t ih =>
    intro st
    simp only [List.foldl_cons]
    obtain ⟨hlen, hk⟩ := ih (splitStep st j)
    obtain ⟨hlen1, hk1⟩ := splitStep_idpt st j
    exact ⟨hlen.trans hlen1, fun k =>
      ⟨(hk k).1.trans (hk1 k).1, (hk k).2.trans (hk1 k).2⟩⟩

/-- A fold of steps that keep ids, points and the length keeps them all. -/
theorem foldIdx_pres (f : List IntPoint → Nat → List IntPoint)
    (hf : ∀ pr j, (f pr j).length = pr.length ∧
      ∀ k, ((f pr j).getD k default).id = (pr.getD k default).id ∧
           ((f pr j).getD k default).pt = (pr.getD k default).pt) :
    ∀ (l : List Nat) (pr : List IntPoint),
      (l.foldl f pr).length = pr.length ∧
      ∀ k, ((l.foldl f pr).getD k default).id = (pr.getD k default).id ∧
           ((l.foldl f pr).getD k default).pt = (pr.getD k default).pt := by
  intro l
  induction l with
  | nil => intro pr; exact ⟨rfl, fun k => ⟨rfl, rfl⟩⟩
  | cons j t ih =>
    intro pr
    simp only [List.foldl_cons]
    obtain ⟨hlen, hk⟩ := ih (f pr j)
    obtain ⟨hlen1, hk1⟩ := hf pr j
    exact ⟨hlen.trans hlen1, fun k =>
      ⟨(hk k).1.trans (hk1 k).1, (hk k).2.trans (hk1 k).2⟩⟩

/-- One second-pass splitter step keeps every record's id and point. -/
theorem splitAfterStep_idpt (P : PolyM) (pr : List IntPoint) (j : Nat) :
    (splitAfterStep P pr j).length = pr.length ∧
    ∀ k, ((splitAfterStep P pr j).getD k default).id
            = (pr.getD k default).id ∧
         ((splitAfterStep P pr j).getD k default).pt
            = (pr.getD k default).pt := by
  unfold splitAfterStep
  dsimp only
  exact set_keep_idpt pr j _ rfl rfl

/-- Splitting both polygons by the crossings preserves the pairing of the
two record lists and the two list lengths. -/
theorem split_paired (p1 p2 : PolyM) (pr1 pr2 : List IntPoint)
    (l1 l2 : List Nat) (hp : Paired pr1 pr2) :
    Paired (splitByIntersections p1 pr1 l1).2
      (splitByIntersections p2 pr2 l2).2 ∧
    (splitByIntersections p1 pr1 l1).2.length = pr1.length ∧
    (splitByIntersections p2 pr2 l2).2.length = pr2.length := by
  obtain ⟨hlen, hpw⟩ := hp
  unfold splitByIntersections
  dsimp only
  have h1 := splitFold_idpt l1 (p1, pr1)
  have h2 := splitFold_idpt l2 (p2, pr2)
  have h1b := foldIdx_pres (splitAfterStep (l1.foldl splitStep (p1, pr1)).1)
    (fun pr j => splitAfterStep_idpt _ pr j) l1
    (l1.foldl splitStep (p1, pr1)).2
  have h2b := foldIdx_pres (splitAfterStep (l2.foldl splitStep (p2, pr2)).1)
    (fun pr j => splitAfterStep_idpt _ pr j) l2
    (l2.foldl splitStep (p2, pr2)).2
  have hL1 : (l1.foldl (splitAfterStep (l1.foldl splitStep (p1, pr1)).1)
      (l1.foldl splitStep (p1, pr1)).2).length = pr1.length :=
    h1b.1.trans h1.1
  have hL2 : (l2.foldl (splitAfterStep (l2.foldl splitStep (p2, pr2)).1)
      (l2.foldl splitStep (p2, pr2)).2).length = pr2.length :=
    h2b.1.trans h2.1
  refine ⟨⟨by rw [hL1, hL2]; exact hlen, ?_⟩, hL1, hL2⟩
  intro k hk
  have hk1 : k < pr1.length := by rw [hL1] at hk; exact hk
  obtain ⟨hpt, hi1, hi2⟩ := hpw k hk1
  refine ⟨?_, ?_, ?_⟩
  · rw [(h1b.2 k).2, (h1.2 k).2, (h2b.2 k).2, (h2.2 k).2]
    exact hpt
  · rw [(h1b.2 k).1, (h1.2 k).1]
    exact hi1
  · rw [(h2b.2 k).1, (h2.2 k).1]
    exact hi2

/-- A paired state is paired-or-marked with no marking yet. -/
theorem paired_to_pom (p1 p2 : List IntPoint) (hp : Paired p1 p2) :
    PairedOrMarked p1 p2 false := by
  obtain ⟨hlen, hpw⟩ := hp
  exact ⟨hlen, fun k hk =>
    ⟨(hpw k hk).1, Or.inl ⟨(hpw k hk).2.1, (hpw k hk).2.2⟩⟩⟩

/-- Without the squeeze flag no position can be marked, so the state is
fully paired. -/
theorem pom_false_to_paired (p1 p2 : List IntPoint)
    (h : PairedOrMarked p1 p2 false) : Paired p1 p2 := by
  obtain ⟨hlen, hpw⟩ := h
  refine ⟨hlen, fun k hk => ?_⟩
  obtain ⟨hpt, hd⟩ := hpw k hk
  rcases hd with ⟨h1, h2⟩ | ⟨hc, _, _⟩
  · exact ⟨hpt, h1, h2⟩
  · exact absurd hc (by decide)

/-- One step of the first marking sweep preserves the paired-or-marked
invariant and the lengths, and touches no other first-list record, provided
the visited record still carries its position as id. -/
theorem sweep1Step_inv (st : SweepSt) (j : Nat)
    (hpm : PairedOrMarked st.prim1 st.prim2 st.do_squeeze)
    (hj : j < st.prim1.length)
    (hid : (st.prim1.getD j default).id = (j : Int)) :
    PairedOrMarked (sweep1Step st j).prim1 (sweep1Step st j).prim2
      (sweep1Step st j).do_squeeze ∧
    (sweep1Step st j).prim1.length = st.prim1.length ∧
    (sweep1Step st j).prim2.length = st.prim2.length ∧
    (∀ k, k ≠ j →
      (sweep1Step st j).prim1.getD k default = st.prim1.getD k default) := by
  obtain ⟨hlen, hpw⟩ := hpm
  have hidx : (st.prim1.getD j default).id.toNat = j := by
    rw [hid]
    simp
  unfold sweep1Step
  dsimp only
  split_ifs with h1 h2
  · exact ⟨⟨hlen, hpw⟩, rfl, rfl, fun k _ => rfl⟩
  · rw [hidx]
    refine ⟨⟨by simp [hlen], ?_⟩, by simp, by simp, ?_⟩
    · intro k hk
      have hk1 : k < st.prim1.length := by simpa using hk
      by_cases hkj : k = j
      · subst hkj
        rw [getD_set_self _ _ _ hk1,
          getD_set_self _ _ _ (show k < st.prim2.length by
            rw [← hlen]; exact hk1)]
        exact ⟨(hpw k hk1).1, Or.inr ⟨rfl, rfl, rfl⟩⟩
      · rw [getD_set_ne _ _ _ _ hkj, getD_set_ne _ _ _ _ hkj]
        obtain ⟨hpt, hrest⟩ := hpw k hk1
        refine ⟨hpt, ?_⟩
        rcases hrest with h | ⟨_, ha, hb⟩
        · exact Or.inl h
        · exact Or.inr ⟨rfl, ha, hb⟩
    · intro k hk
      exact getD_set_ne _ _ _ _ hk
  · exact ⟨⟨hlen, hpw⟩, rfl, rfl, fun k _ => rfl⟩

/-- The first marking sweep preserves the paired-or-marked invariant and the
lengths when the visited records are distinct, in range and still carry
their positions as ids. -/
theorem sweep1_fold_inv :
    ∀ (l : List Nat) (st : SweepSt),
      PairedOrMarked st.prim1 st.prim2 st.do_squeeze →
      l.Nodup →
      (∀ k ∈ l, k < st.prim1.length ∧
        (st.prim1.getD k default).id = (k : Int)) →
      PairedOrMarked (l.foldl sweep1Step st).prim1
        (l.foldl sweep1Step st).prim2 (l.foldl sweep1Step st).do_squeeze ∧
      (l.foldl sweep1Step st).prim1.length = st.prim1.length ∧
      (l.foldl sweep1Step st).prim2.length = st.prim2.length := by
  intro l
  induction l with
  | nil => intro st hpm _ _; exact ⟨hpm, rfl, rfl⟩
  | cons j t ih =>
    intro st hpm hnd hside
    simp only [List.foldl_cons]
    obtain ⟨hj, hid⟩ := hside j (List.mem_cons_self j t)
    obtain ⟨hpm1, hl1, hl2, hunch⟩ := sweep1Step_inv st j hpm hj hid
    have hside2 : ∀ k ∈ t, k < (sweep1Step st j).prim1.length ∧
        ((sweep1Step st j).prim1.getD k default).id = (k : Int) := by
      intro k hk
      have hkj : k ≠ j := by
        intro he
        subst he
        exact (List.nodup_cons.mp hnd).1 hk
      obtain ⟨hkb, hkid⟩ := hside k (List.mem_cons_of_mem j hk)
      refine ⟨by rw [hl1]; exact hkb, ?_⟩
      rw [hunch k hkj]
      exact hkid
    obtain ⟨hpm2, hl3, hl4⟩ :=
      ih (sweep1Step st j) hpm1 (List.Nodup.of_cons hnd) hside2
    exact ⟨hpm2, hl3.trans hl1, hl4.trans hl2⟩

/-- One step of the second marking sweep preserves the paired-or-marked
invariant and the lengths. -/
theorem sweep2Step_inv (st : SweepSt) (j : Nat)
    (hpm : PairedOrMarked st.prim1 st.prim2 st.do_squeeze)
    (hj : j < st.prim2.length) :
    PairedOrMarked (sweep2Step st j).prim1 (sweep2Step st j).prim2
      (sweep2Step st j).do_squeeze ∧
    (sweep2Step st j).prim1.length = st.prim1.length ∧
    (sweep2Step st j).prim2.length = st.prim2.length := by
  obtain ⟨hlen, hpw⟩ := hpm
  have hj1 : j < st.prim1.length := by rw [hlen]; exact hj
  unfold sweep2Step
  dsimp only
  split_ifs with h1 h2
  · exact ⟨⟨hlen, hpw⟩, rfl, rfl⟩
  · exact ⟨⟨hlen, hpw⟩, rfl, rfl⟩
  · obtain ⟨hpt0, hdis⟩ := hpw j hj1
    have hid2 : (st.prim2.getD j default).id = (j : Int) := by
      rcases hdis with ⟨_, h⟩ | ⟨_, _, h⟩
      · exact h
      · exact absurd h h1
    have hidx : (st.prim2.getD j default).id.toNat = j := by
      rw [hid2]
      simp
    rw [hidx]
    refine ⟨⟨by simp [hlen], ?_⟩, by simp, by simp⟩
    intro k hk
    have hk1 : k < st.prim1.length := by simpa using hk
    by_cases hkj : k = j
    · subst hkj
      rw [getD_set_self _ _ _ hk1, getD_set_self _ _ _ hj]
      exact ⟨(hpw k hk1).1, Or.inr ⟨rfl, rfl, rfl⟩⟩
    · rw [getD_set_ne _ _ _ _ hkj, getD_set_ne _ _ _ _ hkj]
      obtain ⟨hpt, hrest⟩ := hpw k hk1
      refine ⟨hpt, ?_⟩
      rcases hrest with h | ⟨_, ha, hb⟩
      · exact Or.inl h
      · exact Or.inr ⟨rfl, ha, hb⟩
  · exact ⟨⟨hlen, hpw⟩, rfl, rfl⟩

/-- The second marking sweep preserves the paired-or-marked invariant and
the lengths when the visited records are in range. -/
theorem sweep2_fold_inv :
    ∀ (l : List Nat) (st : SweepSt),
      PairedOrMarked st.prim1 st.prim2 st.do_squeeze →
      (∀ k ∈ l, k < st.prim2.length) →
      PairedOrMarked (l.foldl sweep2Step st).prim1
        (l.foldl sweep2Step st).prim2 (l.foldl sweep2Step st).do_squeeze ∧
      (l.foldl sweep2Step st).prim1.length = st.prim1.length ∧
      (l.foldl sweep2Step st).prim2.length = st.prim2.length := by
  intro l
  induction l with
  | nil => intro st hpm _; exact ⟨hpm, rfl, rfl⟩
  | cons j t ih =>
    intro st hpm hside
    simp only [List.foldl_cons]
    obtain ⟨hpm1, hl1, hl2⟩ :=
      sweep2Step_inv st j hpm (hside j (List.mem_cons_self j t))
    have hside2 : ∀ k ∈ t, k < (sweep2Step st j).prim2.length := by
      intro k hk
      rw [hl2]
      exact hside k (List.mem_cons_of_mem j hk)
    obtain ⟨hpm2, hl3, hl4⟩ := ih (sweep2Step st j) hpm1 hside2
    exact ⟨hpm2, hl3.trans hl1, hl4.trans hl2⟩

/-- Filtering both marked lists by a sign-matched decision keeps the lengths
equal and the points pairwise equal. -/
theorem filter_zip :
    ∀ (p1 p2 : List IntPoint),
      p1.length = p2.length →
      (∀ k, k < p1.length →
        (p1.getD k default).pt = (p2.getD k default).pt ∧
        ((0 ≤ (p1.getD k default).id ∧ 0 ≤ (p2.getD k default).id) ∨
         ((p1.getD k default).id < 0 ∧ (p2.getD k default).id < 0))) →
      (p1.filter (fun ip => decide (0 ≤ ip.id))).length
        = (p2.filter (fun ip => decide (0 ≤ ip.id))).length ∧
      ∀ k, k < (p1.filter (fun ip => decide (0 ≤ ip.id))).length →
        ((p1.filter (fun ip => decide (0 ≤ ip.id))).getD k default).pt
          = ((p2.filter (fun ip => decide (0 ≤ ip.id))).getD k default).pt := by
  intro p1
  induction p1 with
  | nil =>
    intro p2 hlen _
    have hp2 : p2 = [] := List.length_eq_zero.mp hlen.symm
    subst hp2
    exact ⟨rfl, fun k hk => by simp at hk⟩
  | cons a t ih =>
    intro p2 hlen hpw
    rcases p2 with _ | ⟨b, u⟩
    · simp at hlen
    have hlen' : t.length = u.length := by simpa using hlen
    obtain ⟨hpt0, hdec0⟩ := hpw 0 (by simp)
    simp only [List.getD_cons_zero] at hpt0 hdec0
    have hpw' : ∀ k, k < t.length →
        (t.getD k default).pt = (u.getD k default).pt ∧
        ((0 ≤ (t.getD k default).id ∧ 0 ≤ (u.getD k default).id) ∨
         ((t.getD k default).id < 0 ∧ (u.getD k default).id < 0)) := by
      intro k hk
      have := hpw (k + 1) (by simpa using Nat.succ_lt_succ hk)
      simpa using this
    obtain ⟨hl, hp⟩ := ih u hlen' hpw'
    rcases hdec0 with ⟨ha, hb⟩ | ⟨ha, hb⟩
    · have key1 : List.filter (fun ip => decide (0 ≤ ip.id)) (a :: t)
          = a :: List.filter (fun ip => decide (0 ≤ ip.id)) t := by
        simp [List.filter_cons, ha]
      have key2 : List.filter (fun ip => decide (0 ≤ ip.id)) (b :: u)
          = b :: List.filter (fun ip => decide (0 ≤ ip.id)) u := by
        simp [List.filter_cons, hb]
      rw [key1, key2]
      constructor
      · simp [hl]
      · intro k hk
        cases k with
        | zero => exact hpt0
        | succ m =>
          have hm : m < (t.filter (fun ip => decide (0 ≤ ip.id))).length := by
            simpa using hk
          simpa using hp m hm
    · have hna : ¬ (0 ≤ a.id) := by omega
      have hnb : ¬ (0 ≤ b.id) := by omega
      have key1 : List.filter (fun ip => decide (0 ≤ ip.id)) (a :: t)
          = List.filter (fun ip => decide (0 ≤ ip.id)) t := by
        simp [List.filter_cons, hna]
      have key2 : List.filter (fun ip => decide (0 ≤ ip.id)) (b :: u)
          = List.filter (fun ip => decide (0 ≤ ip.id)) u := by
        simp [List.filter_cons, hnb]
      rw [key1, key2]
      exact ⟨hl, hp⟩

/-- Re-densifying ids from a base: the length is kept, ids become base plus
position, points are untouched. -/
theorem reIdFrom_facts :
    ∀ (l : List IntPoint) (n : Nat),
      (reIdFrom n l).length = l.length ∧
      ∀ k, k < l.length →
        ((reIdFrom n l).getD k default).id = ((n + k : Nat) : Int) ∧
        ((reIdFrom n l).getD k default).pt = (l.getD k default).pt := by
  intro l
  induction l with
  | nil => intro n; exact ⟨rfl, fun k hk => by simp at hk⟩
  | cons a t ih =>
    intro n
    constructor
    · show (_ :: reIdFrom (n + 1) t).length = (a :: t).length
      simp [(ih (n + 1)).1]
    · intro k hk
      cases k with
      | zero =>
        refine ⟨?_, rfl⟩
        show (({ a with id := (n : Int) } :: reIdFrom (n + 1) t).getD 0
            default).id = ((n + 0 : Nat) : Int)
        simp
      | succ m =>
        have hm : m < t.length := by simpa using hk
        obtain ⟨h1, h2⟩ := (ih (n + 1)).2 m hm
        refine ⟨?_, h2⟩
        show ((reIdFrom (n + 1) t).getD m default).id = _
        rw [h1]
        exact congrArg _ (by omega)

/-- The paired-or-marked invariant yields the sign-matched decision needed
by the squeeze filter. -/
theorem pom_filter_hyp (p1 p2 : List IntPoint) (b : Bool)
    (h : PairedOrMarked p1 p2 b) :
    ∀ k, k < p1.length →
      (p1.getD k default).pt = (p2.getD k default).pt ∧
      ((0 ≤ (p1.getD k default).id ∧ 0 ≤ (p2.getD k default).id) ∨
       ((p1.getD k default).id < 0 ∧ (p2.getD k default).id < 0)) := by
  intro k hk
  obtain ⟨hpt, hd⟩ := h.2 k hk
  refine ⟨hpt, ?_⟩
  rcases hd with ⟨h1, h2⟩ | ⟨_, h1, h2⟩
  · exact Or.inl ⟨by rw [h1]; exact Int.natCast_nonneg k,
      by rw [h2]; exact Int.natCast_nonneg k⟩
  · exact Or.inr ⟨by rw [h1]; decide, by rw [h2]; decide⟩

/-- Squeezing a paired-or-marked state (filter the marked pairs out and
re-densify the ids) restores the full pairing invariant. -/
theorem squeeze_paired (p1 p2 : List IntPoint) (b : Bool)
    (h : PairedOrMarked p1 p2 b) :
    Paired (reIdFrom 0 (p1.filter (fun ip => decide (0 ≤ ip.id))))
      (reIdFrom 0 (p2.filter (fun ip => decide (0 ≤ ip.id)))) := by
  obtain ⟨hfl, hfp⟩ := filter_zip p1 p2 h.1 (pom_filter_hyp p1 p2 b h)
  obtain ⟨hr1, hk1⟩ :=
    reIdFrom_facts (p1.filter (fun ip => decide (0 ≤ ip.id))) 0
  obtain ⟨hr2, hk2⟩ :=
    reIdFrom_facts (p2.filter (fun ip => decide (0 ≤ ip.id))) 0
  constructor
  · rw [hr1, hr2, hfl]
  · intro k hk
    have hkf : k < (p1.filter (fun ip => decide (0 ≤ ip.id))).length := by
      rw [hr1] at hk
      exact hk
    obtain ⟨hi1, hp1⟩ := hk1 k hkf
    obtain ⟨hi2, hp2⟩ := hk2 k (by rw [← hfl]; exact hkf)
    refine ⟨?_, ?_, ?_⟩
    · rw [hp1, hp2]
      exact hfp k hkf
    · rw [hi1]
      simp
    · rw [hi2]
      simp

/-- The tail of the duplicate filter: whatever paired-or-marked state the
sweeps produced, both the squeeze branch and the untouched branch return a
fully paired pair of lists. -/
theorem filter_tail (s : Inters) (st2 : SweepSt)
    (hpom : PairedOrMarked st2.prim1 st2.prim2 st2.do_squeeze) :
    Paired
      (if st2.do_squeeze then
        sortIntersections
          { int_points1 :=
              reIdFrom 0 (st2.prim1.filter (fun ip => decide (0 ≤ ip.id))),
            int_points2 :=
              reIdFrom 0 (st2.prim2.filter (fun ip => decide (0 ≤ ip.id))),
            int_points1_sorted := [], int_points2_sorted := [] }
      else
        { s with int_points1 := st2.prim1,
                 int_points2 := st2.prim2 }).int_points1
      ((if st2.do_squeeze then
        sortIntersections
          { int_points1 :=
              reIdFrom 0 (st2.prim1.filter (fun ip => decide (0 ≤ ip.id))),
            int_points2 :=
              reIdFrom 0 (st2.prim2.filter (fun ip => decide (0 ≤ ip.id))),
            int_points1_sorted := [], int_points2_sorted := [] }
      else
        { s with int_points1 := st2.prim1,
                 int_points2 := st2.prim2 }).int_points2) := by
  by_cases hsq : st2.do_squeeze = true
  · rw [if_pos hsq]
    show Paired
      (stampFaceIds
        (reIdFrom 0 (st2.prim1.filter (fun ip => decide (0 ≤ ip.id)))))
      (stampFaceIds
        (reIdFrom 0 (st2.prim2.filter (fun ip => decide (0 ≤ ip.id)))))
    exact stamp_paired _ _ (squeeze_paired st2.prim1 st2.prim2 st2.do_squeeze hpom)
  · rw [if_neg hsq]
    have hb : st2.do_squeeze = false := by simpa using hsq
    have hpom' := hpom
    rw [hb] at hpom'
    exact pom_false_to_paired _ _ hpom'

/-- The duplicate filter preserves the pairing invariant: with paired input
lists and well-formed sorted arrays, its two output lists are paired
again. -/
theorem filter_pairing (s : Inters)
    (hp : Paired s.int_points1 s.int_points2)
    (hs1b : ∀ k ∈ s.int_points1_sorted, k < s.int_points1.length)
    (hs1n : s.int_points1_sorted.Nodup)
    (hs2b : ∀ k ∈ s.int_points2_sorted, k < s.int_points2.length) :
    Paired (filterDuplicatedIntersections s).int_points1
      (filterDuplicatedIntersections s).int_points2 := by
  by_cases hlt : s.int_points1.length < 2
  · have he : filterDuplicatedIntersections s = s := by
      unfold filterDuplicatedIntersections
      rw [if_pos hlt]
    rw [he]
    exact hp
  · set st0 : SweepSt := (match s.int_points1_sorted with
      | [] => { prim1 := s.int_points1, prim2 := s.int_points2,
                ref1 := default, ref2 := default, do_squeeze := false }
      | j0 :: _ =>
        { prim1 := s.int_points1, prim2 := s.int_points2,
          ref1 := s.int_points1.getD j0 default,
          ref2 := s.int_points2.getD
            (s.int_points1.getD j0 default).id.toNat default,
          do_squeeze := false }) with hst0
    have h0a : st0.prim1 = s.int_points1 := by
      rw [hst0]
      cases s.int_points1_sorted <;> rfl
    have h0b : st0.prim2 = s.int_points2 := by
      rw [hst0]
      cases s.int_points1_sorted <;> rfl
    have h0c : st0.do_squeeze = false := by
      rw [hst0]
      cases s.int_points1_sorted <;> rfl
    have hpm0 : PairedOrMarked st0.prim1 st0.prim2 st0.do_squeeze := by
      rw [h0a, h0b, h0c]
      exact paired_to_pom _ _ hp
    have hside1 : ∀ k ∈ s.int_points1_sorted.drop 1, k < st0.prim1.length ∧
        (st0.prim1.getD k default).id = (k : Int) := by
      intro k hk
      have hkm : k ∈ s.int_points1_sorted := List.mem_of_mem_drop hk
      have hkb := hs1b k hkm
      rw [h0a]
      exact ⟨hkb, (hp.2 k hkb).2.1⟩
    have h1 := sweep1_fold_inv (s.int_points1_sorted.drop 1) st0 hpm0
      (List.Nodup.sublist (List.drop_sublist 1 s.int_points1_sorted) hs1n)
      hside1
    set st1 : SweepSt := (s.int_points1_sorted.drop 1).foldl sweep1Step st0
      with hst1
    set st2 : SweepSt := (match s.int_points2_sorted with
      | [] => st1
      | j0 :: _ =>
        (s.int_points2_sorted.drop 1).foldl sweep2Step
          { st1 with ref2 := st1.prim2.getD j0 default,
                     ref1 := st1.prim1.getD
                       (st1.prim2.getD j0 default).id.toNat default })
      with hst2
    have h2 : PairedOrMarked st2.prim1 st2.prim2 st2.do_squeeze := by
      rw [hst2]
      cases hq2 : s.int_points2_sorted with
      | nil => exact h1.1
      | cons j2 r2 =>
        have hside2 : ∀ k ∈ (j2 :: r2).drop 1, k < st1.prim2.length := by
          intro k hk
          have hkm : k ∈ s.int_points2_sorted := by
            rw [hq2]
            exact List.mem_of_mem_drop hk
          have hkb : k < s.int_points2.length := hs2b k hkm
          rw [h1.2.2, h0b]
          exact hkb
        exact (sweep2_fold_inv ((j2 :: r2).drop 1) { st1 with ref2 := st1.prim2.getD j2 default, ref1 := st1.prim1.getD (st1.prim2.getD j2 default).id.toNat default } h1.1 hside2).1
    have he : filterDuplicatedIntersections s =
        (if st2.do_squeeze then
          sortIntersections
            { int_points1 :=
                reIdFrom 0 (st2.prim1.filter (fun ip => decide (0 ≤ ip.id))),
              int_points2 :=
                reIdFrom 0 (st2.prim2.filter (fun ip => decide (0 ≤ ip.id))),
              int_points1_sorted := [], int_points2_sorted := [] }
        else
          { s with int_points1 := st2.prim1,
                   int_points2 := st2.prim2 }) := by
      unfold filterDuplicatedIntersections
      rw [if_neg hlt]
    rw [he]
    exact filter_tail s st2 h2

/-- The pairing invariant spelled out: equal lengths, positional ids on
both sides and epsilon-equal points pairwise. -/
theorem paired_conclusion (l1 l2 : List IntPoint) (hp : Paired l1 l2) :
    l1.length = l2.length ∧
    ∀ k, k < l1.length →
      (l1.getD k default).id = (k : Int) ∧
      (l2.getD k default).id = (k : Int) ∧
      ((l1.getD k default).pt.equalTo (l2.getD k default).pt) = true := by
  obtain ⟨hlen, hpw⟩ := hp
  refine ⟨hlen, fun k hk => ?_⟩
  obtain ⟨hpt, h1, h2⟩ := hpw k hk
  refine ⟨h1, h2, ?_⟩
  rw [hpt]
  exact ptEqualTo_refl _

/-- C1: with every reported crossing admitting at least one sub-shape on
both edges, the pipeline of collect, sort, split and duplicate filter ends
with the two crossing lists paired: they have equal length, the record at
every position of either list carries that position as its id, and the two
records at a position carry epsilon-equal points. -/
theorem C1_crossing_pairing (p1 p2 : PolyM)
    (sp1 sp2 : Nat → Pt → List (Option ℤ)) (crossings : List Crossing)
    (hsp : ∀ c ∈ crossings, sp1 c.e1 c.pt ≠ [] ∧ sp2 c.e2 c.pt ≠ []) :
    (calcPipeline p1 p2 sp1 sp2 crossings).2.2.int_points1.length
      = (calcPipeline p1 p2 sp1 sp2 crossings).2.2.int_points2.length ∧
    ∀ k, k < (calcPipeline p1 p2 sp1 sp2 crossings).2.2.int_points1.length →
      ((calcPipeline p1 p2 sp1 sp2 crossings).2.2.int_points1.getD k
          default).id = (k : Int) ∧
      ((calcPipeline p1 p2 sp1 sp2 crossings).2.2.int_points2.getD k
          default).id = (k : Int) ∧
      (((calcPipeline p1 p2 sp1 sp2 crossings).2.2.int_points1.getD k
          default).pt.equalTo
        ((calcPipeline p1 p2 sp1 sp2 crossings).2.2.int_points2.getD k
          default).pt) = true := by
  have hcol := getIntersections_paired p1.E p2.E sp1 sp2 crossings hsp
  have hstamp := stamp_paired _ _ hcol
  set pr := getIntersections p1.E p2.E sp1 sp2 crossings with hpr
  set q1 := stampFaceIds pr.1 with hq1
  set q2 := stampFaceIds pr.2 with hq2
  have hsplit := split_paired p1 p2 q1 q2 (sortIndices q1) (sortIndices q2)
    hstamp
  have hmem1 : ∀ k ∈ sortIndices q1, k < q1.length := by
    intro k hk
    have := (sortIndices_perm q1).mem_iff.mp hk
    simpa using this
  have hmem2 : ∀ k ∈ sortIndices q2, k < q2.length := by
    intro k hk
    have := (sortIndices_perm q2).mem_iff.mp hk
    simpa using this
  have hnd1 : (sortIndices q1).Nodup :=
    ((sortIndices_perm q1).nodup_iff).mpr (List.nodup_range _)
  have hb1 : ∀ k ∈ sortIndices q1,
      k < (splitByIntersections p1 q1 (sortIndices q1)).2.length := by
    intro k hk
    rw [hsplit.2.1]
    exact hmem1 k hk
  have hb2 : ∀ k ∈ sortIndices q2,
      k < (splitByIntersections p2 q2 (sortIndices q2)).2.length := by
    intro k hk
    rw [hsplit.2.2]
    exact hmem2 k hk
  have hfil := filter_pairing
    { int_points1 := (splitByIntersections p1 q1 (sortIndices q1)).2,
      int_points2 := (splitByIntersections p2 q2 (sortIndices q2)).2,
      int_points1_sorted := sortIndices q1,
      int_points2_sorted := sortIndices q2 }
    hsplit.1 hb1 hnd1 hb2
  exact paired_conclusion _ _ hfil

/-- Witness for C1 at the one-crossing example with a constant
one-sub-shape split oracle. -/
theorem C1_crossing_pairing_witness :
    (∀ c ∈ exPairCross, exPairSp c.e1 c.pt ≠ [] ∧ exPairSp c.e2 c.pt ≠ []) ∧
    (calcPipeline exPairPoly exPairPoly exPairSp exPairSp
        exPairCross).2.2.int_points1.length
      = (calcPipeline exPairPoly exPairPoly exPairSp exPairSp
        exPairCross).2.2.int_points2.length ∧
    ((calcPipeline exPairPoly exPairPoly exPairSp exPairSp
        exPairCross).2.2.int_points1.getD 0 default).id = (0 : Int) := by
  have hsp : ∀ c ∈ exPairCross,
      exPairSp c.e1 c.pt ≠ [] ∧ exPairSp c.e2 c.pt ≠ [] := by
    intro c hc
    exact ⟨by simp [exPairSp], by simp [exPairSp]⟩
  refine ⟨hsp, (C1_crossing_pairing exPairPoly exPairPoly exPairSp exPairSp
    exPairCross hsp).1, ?_⟩
  exact ((C1_crossing_pairing exPairPoly exPairPoly exPairSp exPairSp
    exPairCross hsp).2 0 (by decide)).1

/-- C3 counterexample: on the dead-end example the link swap leaves the
polygon-1 record with edge_after still undefined, yet the restitch tail
returns a result state — and the returned record still carries the dead
end. No fatal error is surfaced, refuting the claim that the engine fails
instead of returning a result polygon. -/
theorem C3_silent_dead_end_counterexample :
    ((swapLinks exSwapSt [0] [0]).prim1.getD 0 default).edge_after = none ∧
    ∃ r, swapLinksAndRestore 4 [] [] 0 exSwapSt [0] [0] = Except.ok r ∧
      (r.prim.getD 0 default).edge_after = none := by
  refine ⟨by decide, ⟨_, rfl, by decide⟩⟩

/-- C3 (amended): the restitch tail never surfaces an error — for every
input it returns Except.ok — and the face restorer silently skips every
record whose edge_before or edge_after is still undefined, with no check
raised on the unresolved touching point. -/
theorem C3_restitch_never_errors (nEdges : Nat) (faces1 faces2 : List Nat)
    (nextF : Nat) (st : SwapSt) (sorted1 sorted2 : List Nat) :
    (∃ r, swapLinksAndRestore nEdges faces1 faces2 nextF st sorted1 sorted2
        = Except.ok r) ∧
    (∀ (s : RestoreSt) (j : Nat),
      (s.prim.getD j default).edge_before = none ∨
      (s.prim.getD j default).edge_after = none →
      restoreStep nEdges s j = s) := by
  refine ⟨⟨_, rfl⟩, ?_⟩
  intro s j h
  rcases h with h | h
  · unfold restoreStep
    dsimp only
    rw [h]
  · rcases hb : (s.prim.getD j default).edge_before with _ | b
    · unfold restoreStep
      dsimp only
      rw [hb]
    · unfold restoreStep
      dsimp only
      rw [hb, h]

/-- Witness for the amended C3 at the dead-end example. -/
theorem C3_restitch_never_errors_witness :
    (∃ r, swapLinksAndRestore 4 [] [] 0 exSwapSt [0] [0] = Except.ok r) ∧
    restoreStep 4 exRestoreSt 0 = exRestoreSt :=
  ⟨(C3_restitch_never_errors 4 [] [] 0 exSwapSt [0] [0]).1,
   (C3_restitch_never_errors 4 [] [] 0 exSwapSt [0] [0]).2 exRestoreSt 0
     (Or.inr (by decide))⟩

/-- The heap frame of a binary boolean call: both writes land on the two
freshly appended clone slots, so every pre-existing slot is unchanged. -/
theorem booleanOpBinaryH_frame (body : PolyM → PolyM → PolyM × PolyM)
    (h : List PolyM) (p1 p2 : PolyM) (j : Nat) (hj : j < h.length) :
    (booleanOpBinaryH body h p1 p2).1.getD j default = h.getD j default := by
  unfold booleanOpBinaryH
  dsimp only
  have h1j : j ≠ (h ++ [p1]).length := by
    simp only [List.length_append, List.length_singleton]
    omega
  have h0j : j ≠ h.length := by omega
  rw [getD_set_ne _ _ _ _ h1j, getD_set_ne _ _ _ _ h0j,
    getD_append_lt _ _ _ (by simp only [List.length_append,
      List.length_singleton]; omega),
    getD_append_lt _ _ _ hj]

/-- C9: every entry point of the engine — unify, intersect, subtract,
innerClip, outerClip and calculateIntersections — clones its two polygon
arguments and works on the clones: after the call every slot the caller
already held is unchanged; in particular subtract reverses only the clone
value of the second polygon, never the caller's slot. -/
theorem C9_entry_points_clone
    (body : PolyM → PolyM → Nat → Bool → PolyM × PolyM)
    (rv : PolyM → PolyM) (sp1 sp2 : Nat → Pt → List (Option ℤ))
    (crossings : List Crossing) (h : List PolyM) (i1 i2 j : Nat)
    (hj : j < h.length) :
    (unifyH body h i1 i2).1.getD j default = h.getD j default ∧
    (intersectH body h i1 i2).1.getD j default = h.getD j default ∧
    (subtractH rv body h i1 i2).1.getD j default = h.getD j default ∧
    (innerClipH body h i1 i2).1.getD j default = h.getD j default ∧
    (outerClipH body h i1 i2).1.getD j default = h.getD j default ∧
    (calculateIntersectionsH sp1 sp2 crossings h i1 i2).1.getD j default
      = h.getD j default :=
  ⟨booleanOpBinaryH_frame _ h _ _ j hj,
   booleanOpBinaryH_frame _ h _ _ j hj,
   booleanOpBinaryH_frame _ h _ _ j hj,
   booleanOpBinaryH_frame _ h _ _ j hj,
   booleanOpBinaryH_frame _ h _ _ j hj,
   booleanOpBinaryH_frame _ h _ _ j hj⟩

/-- Witness for C9 on a one-slot heap. -/
theorem C9_entry_points_clone_witness :
    (0 : Nat) < [exPairPoly].length ∧
    (unifyH (fun a b _ _ => (a, b)) [exPairPoly] 0 0).1.getD 0 default
      = [exPairPoly].getD 0 default ∧
    (subtractH id (fun a b _ _ => (a, b)) [exPairPoly] 0 0).1.getD 0 default
      = [exPairPoly].getD 0 default :=
  ⟨by decide,
   (C9_entry_points_clone (fun a b _ _ => (a, b)) id exPairSp exPairSp
     exPairCross [exPairPoly] 0 0 0 (by decide)).1,
   (C9_entry_points_clone (fun a b _ _ => (a, b)) id exPairSp exPairSp
     exPairCross [exPairPoly] 0 0 0 (by decide)).2.2.1⟩

end FlattenBool
